import Mathlib

/-
Formal model of the `test_tools` package of django-test-tools.

The development shallowly embeds the pure data flow of the Python sources:

* `src/test_tools/utils.py`   — `DebugList` (diff helpers for model objects)
                                and `model_factory`;
* `src/test_tools/test_runner.py` — `get_test_db_name` and
                                `PersistentTestDatabaseMixin.setup_databases` /
                                `teardown_databases`;
* `src/test_tools/signals.py` — `reset_connection` and `call_test_db_command`.

Conventions of the embedding:

* Python lists become `List`, dictionaries become association lists
  (`List (key × value)`) kept in insertion order; a Python `dict` has
  distinct keys, which theorems assume through `Nodup` hypotheses on the
  key lists.
* Python `None`-or-empty ("falsy") string settings are modelled as `""`;
  presence of an optional dictionary key is modelled with `Option`.
* Paths that raise in Python (`KeyError`, `TypeError` from `zip` over a
  non-iterable, `ImproperlyConfigured` from `dependency_ordered`) make the
  embedded function return `none`.
* The two-slot message template `"{0}\n{1}"` that `DebugList.get_diff`
  passes to `get_order_diff` is modelled as the binary function
  `formatRD`, the substitution function of that template; a general
  template parameter is modelled as a `String → String → String` argument.
* Side effects that do not touch `settings_dict` or the set of existing
  databases (closing connections, `features.confirm()`, opening cursors,
  running a management command) are modelled as no-ops or as entries of an
  effect log.
-/

namespace TestTools

/-! ## Objects handled by `DebugList` (utils.py)

A persisted model object, as the diff helpers see it: an `id` attribute,
a class name (`obj.__class__.__name__`) and the remaining attributes as a
string-valued association list read through `getattr`. -/

structure Obj where
  id : Nat
  cls : String
  attrs : List (String × String)
deriving Repr, DecidableEq

/-- First-match association-list lookup, the behaviour of a Python `dict`
(with distinct keys) read access. -/
def lookupA {α : Type} : List (String × α) → String → Option α
  | [], _ => none
  | (k, v) :: rest, key => if k = key then some v else lookupA rest key

/-- Attribute access on a model object. Python's `getattr` raises for a
missing attribute; the claims only exercise present attributes, so a
missing one is given the harmless value `""`. -/
def getattr (o : Obj) (f : String) : String :=
  (lookupA o.attrs f).getD ""

/-- `DebugList` from utils.py: a list extended with the tracked `fields`
attribute set by `model_factory`. -/
structure DebugList (α : Type) where
  items : List α
  fields : List String
deriving Repr, DecidableEq

/-- Substitution function of the message template `"{0}\n{1}"` used by
`DebugList.get_diff`: Python's `str.format` on that template places the
first argument, a newline, then the second argument. -/
def formatRD (reason diff : String) : String :=
  reason ++ "\n" ++ diff

/-- Python's `str(None)` versus `str` of a present reason, as applied by
`str.format` to the `reason` slot. -/
def reasonStr : Option String → String
  | none => "None"
  | some s => s

/-- `' '.join(map(str, ids))`. -/
def joinIds (ids : List Nat) : String :=
  String.intercalate " " (ids.map toString)

/-- `DebugList.get_order_diff` (utils.py lines 32-44): builds the wrong
order message when the id sequences differ but denote the same set of
ids; otherwise falls off the end of the function, returning `None`.
`message` is the substitution function of the caller's template. -/
def get_order_diff (self : DebugList Obj) (objects : List Obj)
    (message : String → String → String) : Option String :=
  let actual_ids := objects.map Obj.id
  let expected_ids := self.items.map Obj.id
  if actual_ids ≠ expected_ids ∧ actual_ids.toFinset = expected_ids.toFinset then
    some (message "Wrong ID order"
      ("Expect: " ++ joinIds actual_ids ++ "\nGot:    " ++ joinIds expected_ids))
  else
    none

/-- The reason string produced by `get_diff` when the lengths differ:
`'Expected length: {0} but got {1} objects'.format(len(self), len(objects))`. -/
def lengthReason (expected actual : Nat) : String :=
  "Expected length: " ++ toString expected ++ " but got "
    ++ toString actual ++ " objects"

/-- The `build_diff` helper nested in `get_diff`: renders one object as
`ClassName(field=value, ...)` over the tracked fields.  The Python code
first builds a `dict` from the (distinct) field names and then iterates
its items; that iteration is modelled in field-list order. -/
def build_obj_diff (fields : List String) (o : Obj) : String :=
  o.cls ++ "(" ++
    String.intercalate ", " (fields.map (fun f => f ++ "=" ++ getattr o f))
    ++ ")"

/-- `DebugList.get_diff` (utils.py lines 46-91). -/
def get_diff (self : DebugList Obj) (objects : List Obj) (ordered : Bool) :
    String :=
  let reason0 : Option String :=
    if self.items.length ≠ objects.length then
      some (lengthReason self.items.length objects.length)
    else none
  let early : Option String :=
    if self.items.length ≠ objects.length then none
    else if ordered then get_order_diff self objects formatRD
    else none
  match early with
  | some msg => msg
  | none =>
    let missed_objects :=
      self.items.filter (fun o => decide (o.id ∉ objects.map Obj.id))
    let extra_objects :=
      objects.filter (fun o => decide (o.id ∉ self.items.map Obj.id))
    let reason : Option String :=
      if reason0 = none ∧ (missed_objects ≠ [] ∨ extra_objects ≠ []) then
        some "Expected and actual objects are different"
      else reason0
    let diff : String :=
      (if missed_objects ≠ [] then
        "Missed objects: \n" ++
          String.intercalate "\n" (missed_objects.map (build_obj_diff self.fields))
      else "") ++
      (if extra_objects ≠ [] then
        "\n\nExtra objects: \n" ++
          String.intercalate "\n" (extra_objects.map (build_obj_diff self.fields))
      else "")
    formatRD (reasonStr reason) diff

/-- `DebugList.has_diff` (utils.py lines 93-101). -/
def has_diff (self : DebugList Obj) (objects : List Obj) (ordered : Bool) :
    Bool :=
  let actual_ids := objects.map Obj.id
  let expected_ids := self.items.map Obj.id
  if actual_ids.length ≠ expected_ids.length then true
  else if ordered then decide (actual_ids ≠ expected_ids)
  else decide (actual_ids.toFinset ≠ expected_ids.toFinset)

/-! ## `model_factory` (utils.py lines 104-129)

Keyword argument values are either scalars or lists of scalars; the
Python-level distinction `isinstance(value, list)` is carried by `PyVal`. -/

inductive PyVal where
  | atom : Nat → PyVal
  | listOf : List PyVal → PyVal
deriving Repr

instance : Inhabited PyVal := ⟨PyVal.atom 0⟩

/-- `isinstance(v, list)`. -/
def PyVal.isList : PyVal → Bool
  | .atom _ => false
  | .listOf _ => true

/-- Extraction of the elements of a list value; `none` models the
`TypeError` Python's `zip` raises on a non-iterable argument. -/
def PyVal.asList? : PyVal → Option (List PyVal)
  | .atom _ => none
  | .listOf l => some l

/-- A constructed model instance `model(*args, **_kwargs)` (or
`model.objects.create(...)` when `save` was passed): recorded as the
save flag together with the keyword arguments it received. -/
structure Instance where
  saved : Bool
  attrs : List (String × PyVal)
deriving Repr

instance : Inhabited Instance := ⟨⟨false, []⟩⟩

/-- The return value of `model_factory`: either the single instance
itself (`models[0]`) or the `DebugList` of all instances. -/
inductive FactoryResult where
  | single : Instance → FactoryResult
  | debugList : DebugList Instance → FactoryResult
deriving Repr

/-- The scalar-lifting step of `model_factory`: when there are keyword
arguments and the first value is not a list, every value is wrapped in a
singleton list (`kwargs[key] = [kwargs[key]]`). -/
def normalizeKwargs (kwargs : List (String × PyVal)) : List (String × PyVal) :=
  match kwargs with
  | [] => []
  | (_, v) :: _ =>
    if v.isList then kwargs
    else kwargs.map (fun p => (p.1, PyVal.listOf [p.2]))

/-- The smallest length among the lists, `0` for an empty family —
the length of Python's `zip(*lists)`. -/
def minLen : List (List PyVal) → Nat
  | [] => 0
  | [l] => l.length
  | l :: rest => min l.length (minLen rest)

/-- Element of a list at an index, with a default for out-of-range. -/
def nthD (l : List PyVal) (i : Nat) : PyVal :=
  (l.get? i).getD (PyVal.atom 0)

/-- Python's `zip(*ls)`: the sequence of positional tuples, one for each
index below the length of the shortest list. -/
def pyZip (ls : List (List PyVal)) : List (List PyVal) :=
  match ls with
  | [] => []
  | _ => (List.range (minLen ls)).map (fun i => ls.filterMap (fun l => l.get? i))

/-- `model_factory` (utils.py lines 104-129).  The Python function first
pops the `save` flag out of `kwargs`; here `save` is the popped flag and
`kwargs` the remaining keyword arguments in `SortedDict` order.  The
positional `model` and `*args` only feed the constructor and are not part
of the data flow the claims are about. -/
def model_factory (save : Bool) (kwargs : List (String × PyVal)) :
    Option FactoryResult :=
  let kw := normalizeKwargs kwargs
  let keys := kw.map Prod.fst
  match (kw.map Prod.snd).mapM PyVal.asList? with
  | none => none
  | some vals =>
    let models : List Instance :=
      if kw.isEmpty then [⟨save, []⟩]
      else (pyZip vals).map (fun combo => ⟨save, keys.zip combo⟩)
    if models.length = 1 then some (.single models.headI)
    else some (.debugList ⟨models, keys⟩)

/-- The number of instances a `model_factory` call constructed. -/
def countInstances : Option FactoryResult → Option Nat
  | none => none
  | some (.single _) => some 1
  | some (.debugList dl) => some dl.items.length

/-- The list of constructed instances. -/
def resInstances : Option FactoryResult → List Instance
  | none => []
  | some (.single i) => [i]
  | some (.debugList dl) => dl.items

/-- Whether the call returned the bare single instance (`models[0]`)
rather than a `DebugList`. -/
def isSingle : Option FactoryResult → Bool
  | some (.single _) => true
  | _ => false

/-- Tags every keyword value as a genuine Python list. -/
def mkListKw (kw : List (String × List PyVal)) : List (String × PyVal) :=
  kw.map (fun p => (p.1, PyVal.listOf p.2))

/-! ## The persistent test-database runner (test_runner.py)

A database connection is represented by its `settings_dict`.  The string
settings that the code tests for truthiness (`TEST_NAME`, `TEST_MIRROR`)
use `""` for the falsy values `None`/`''`; `TEST_DEPENDENCIES` is `none`
when the key is absent from the dictionary.  `host`, `port` and `engine`
feed the framework's `test_db_signature`; `extra` stands for every other
entry of the dictionary, which the code never touches. -/

structure SettingsDict where
  name : String
  host : String
  port : String
  engine : String
  test_name : String
  test_mirror : String
  test_dependencies : Option (List String)
  extra : List (String × String)
deriving Repr, DecidableEq

def DEFAULT_DB_ALIAS : String := "default"

/-- `get_test_db_name` (test_runner.py lines 37-40): `TEST_NAME` when
truthy, else the framework constant `'test_'` prepended to `NAME`. -/
def get_test_db_name (sd : SettingsDict) : String :=
  if sd.test_name ≠ "" then sd.test_name else "test_" ++ sd.name

/-- The framework's `BaseDatabaseCreation.test_db_signature` (Django 1.4),
which the first pass of `setup_databases` calls: the `(HOST, PORT,
ENGINE, NAME)` tuple of the settings dictionary. -/
def test_db_signature (sd : SettingsDict) : String × String × String × String :=
  (sd.host, sd.port, sd.engine, sd.name)

abbrev Sig := String × String × String × String

/-- The `django.db.connections` handler: aliases with their settings, in
handler iteration order.  A real handler has distinct aliases; theorems
assume that through `Nodup` on the key list. -/
abbrev Conns := List (String × SettingsDict)

/-- The server-side state the runner could in principle touch: the set of
existing databases together with the connection settings. -/
structure World where
  dbs : List String
  conns : Conns
deriving Repr

/-- Assignment `connections[a].settings_dict['NAME'] = n`. -/
def setName (conns : Conns) (a : String) (n : String) : Conns :=
  conns.map (fun p => (p.1, if p.1 = a then { p.2 with name := n } else p.2))

/-- Accumulators of the first pass of `setup_databases`. -/
structure FirstPass where
  mirrored_aliases : List (String × String)
  test_databases : List (Sig × String × List String)
  dependencies : List (String × List String)
deriving Repr

/-- `test_databases.setdefault(signature, (NAME, []))[1].append(alias)`:
a new signature opens a group carrying this connection's `NAME`; an
existing group keeps its stored name and gains the alias. -/
def addToGroup (sig : Sig) (nm : String) (a : String) :
    List (Sig × String × List String) → List (Sig × String × List String)
  | [] => [(sig, nm, [a])]
  | g :: rest =>
    if g.1 = sig then (g.1, g.2.1, g.2.2 ++ [a]) :: rest
    else g :: addToGroup sig nm a rest

/-- One connection of the first pass (test_runner.py lines 66-100). -/
def firstPassStep (fp : FirstPass) (c : String × SettingsDict) : FirstPass :=
  if c.2.test_mirror ≠ "" then
    { fp with mirrored_aliases := fp.mirrored_aliases ++ [(c.1, c.2.test_mirror)] }
  else
    { mirrored_aliases := fp.mirrored_aliases
      test_databases :=
        addToGroup (test_db_signature c.2) c.2.name c.1 fp.test_databases
      dependencies :=
        match c.2.test_dependencies with
        | some ds => fp.dependencies ++ [(c.1, ds)]
        | none =>
          if c.1 ≠ DEFAULT_DB_ALIAS then
            fp.dependencies ++ [(c.1, [DEFAULT_DB_ALIAS])]
          else fp.dependencies }

def firstPass (conns : Conns) : FirstPass :=
  conns.foldl firstPassStep ⟨[], [], []⟩

/-! ### The framework's `dependency_ordered` (Django 1.4)

`setup_databases` iterates `dependency_ordered(test_databases.items(),
dependencies)`.  The framework function first checks that no database
group depends on one of its own aliases, then repeatedly sweeps the
remaining groups, emitting every group whose dependencies are already
resolved; a sweep that emits nothing raises `ImproperlyConfigured`
(modelled as `none`).  Dependency sets are modelled as lists; only
membership in them matters. -/

def aliasesOf (g : Sig × String × List String) : List String := g.2.2

/-- The union of `dependencies.get(alias, [])` over the group's aliases. -/
def groupDeps (deps : List (String × List String))
    (g : Sig × String × List String) : List String :=
  ((aliasesOf g).map (fun a => (lookupA deps a).getD [])).flatten

/-- One sweep of the `while` loop: returns the groups emitted during the
sweep (in order), the deferred groups, and the grown resolved set.  The
resolved set grows during the sweep, exactly as in the framework code. -/
def onePass (dm : (Sig × String × List String) → List String) :
    List (Sig × String × List String) → List String →
      List (Sig × String × List String) × List (Sig × String × List String)
        × List String
  | [], res => ([], [], res)
  | g :: rest, res =>
    if (dm g).all (fun d => decide (d ∈ res)) then
      let r := onePass dm rest (res ++ aliasesOf g)
      (g :: r.1, r.2.1, r.2.2)
    else
      let r := onePass dm rest res
      (r.1, g :: r.2.1, r.2.2)

/-- The sweep loop.  Each successful sweep strictly shrinks the worklist,
so the initial list length bounds the number of sweeps; the fuel pattern
makes that bound structural.  Fuel can only run out on a worklist that a
sweep failed to shrink, which the `r.1 = []` test has already turned into
`none` before. -/
def depLoopAux (dm : (Sig × String × List String) → List String) :
    Nat → List (Sig × String × List String) → List String →
      Option (List (Sig × String × List String))
  | _, [], _ => some []
  | 0, _ :: _, _ => none
  | fuel + 1, g :: rest, res =>
    let r := onePass dm (g :: rest) res
    if r.1 = [] then none
    else (depLoopAux dm fuel r.2.1 r.2.2).map (fun out => r.1 ++ out)

/-- `dependency_ordered(test_databases, dependencies)`: `none` models the
`ImproperlyConfigured` exceptions of the framework function. -/
def dependency_ordered (tds : List (Sig × String × List String))
    (deps : List (String × List String)) :
    Option (List (Sig × String × List String)) :=
  if tds.all (fun g => (groupDeps deps g).all (fun d => decide (d ∉ aliasesOf g)))
  then depLoopAux (groupDeps deps) tds.length tds []
  else none

/-! ### The second pass and the mirror pass -/

/-- Connection state plus the `old_names` accumulator of the second pass:
`(alias, db_name, created-flag)` triples (the first component stands for
the connection object the Python code stores). -/
structure SetupState where
  conns : Conns
  old_names : List (String × String × Bool)
deriving Repr

/-- `PersistentTestDatabaseMixin.reopen_connection`: closes and reopens
the connection after pointing `NAME` at the test database name.  Only the
settings assignment is state the embedding tracks; an unknown alias
models the framework's `KeyError`. -/
def reopen_connection (conns : Conns) (a : String) : Option Conns :=
  match lookupA conns a with
  | none => none
  | some sd => some (setName conns a (get_test_db_name sd))

/-- Handling of `aliases[1:]` members of a group (test_runner.py lines
104-115): with a truthy `db_name` the connection is just renamed; with a
falsy one it is reopened (forced creation for backends such as SQLite). -/
def processDup (db_name : String) (st : SetupState) (a : String) :
    Option SetupState :=
  if db_name ≠ "" then
    match lookupA st.conns a with
    | none => none
    | some sd =>
      some ⟨setName st.conns a (get_test_db_name sd),
        st.old_names ++ [(a, db_name, false)]⟩
  else
    match reopen_connection st.conns a with
    | none => none
    | some c => some ⟨c, st.old_names ++ [(a, db_name, true)]⟩

/-- One group of the second pass: reopen the first alias, then handle the
remaining aliases of the group.  An empty alias list would be an
`IndexError` in Python; groups are built non-empty. -/
def processGroup (st : SetupState) (g : Sig × String × List String) :
    Option SetupState :=
  match g.2.2 with
  | [] => none
  | a0 :: rest =>
    match reopen_connection st.conns a0 with
    | none => none
    | some c0 =>
      rest.foldlM (processDup g.2.1) ⟨c0, st.old_names ++ [(a0, g.2.1, true)]⟩

/-- One entry of the mirror pass (test_runner.py lines 117-120): record
the mirror's current `NAME`, then point it at the mirrored alias's
current `NAME`. -/
def processMirror (st : Conns × List (String × String)) (m : String × String) :
    Option (Conns × List (String × String)) :=
  match lookupA st.1 m.1, lookupA st.1 m.2 with
  | some sd, some tsd =>
    some (setName st.1 m.1 tsd.name, st.2 ++ [(m.1, sd.name)])
  | _, _ => none

/-- `PersistentTestDatabaseMixin.setup_databases` (test_runner.py lines
62-124).  Returns the updated world together with the `old_names` and
`mirrors` lists the method returns.  No operation of the method touches
the set of existing databases, which is threaded through unchanged. -/
def setup_databases (w : World) :
    Option (World × List (String × String × Bool) × List (String × String)) :=
  let fp := firstPass w.conns
  match dependency_ordered fp.test_databases fp.dependencies with
  | none => none
  | some ordered =>
    match ordered.foldlM processGroup ⟨w.conns, []⟩ with
    | none => none
    | some st =>
      match fp.mirrored_aliases.foldlM processMirror (st.conns, []) with
      | none => none
      | some cm => some (⟨w.dbs, cm.1⟩, st.old_names, cm.2)

/-- `PersistentTestDatabaseMixin.teardown_databases` (test_runner.py
lines 126-128): the body is `pass`. -/
def teardown_databases {α : Type} (old_config : α) (w : World) : World :=
  w

/-! ## Signal helpers (signals.py) -/

/-- `reset_connection` (signals.py lines 11-16): close the connection,
assign `NAME`, reconfirm features and reopen a cursor.  Only the `NAME`
assignment touches tracked state. -/
def reset_connection (conns : Conns) (a : String) (new_name : String) : Conns :=
  setName conns a new_name

/-- The loop body of `call_test_db_command` over the handler's aliases.
The returned list logs the aliases the management command was called on.
`lookupA` cannot miss for an alias taken from the handler itself; the
`none` branch is the corresponding dead default. -/
def ctdcGo : List String → Conns → List String → Conns × List String
  | [], conns, ran => (conns, ran)
  | a :: rest, conns, ran =>
    match lookupA conns a with
    | none => ctdcGo rest conns ran
    | some sd =>
      if sd.name.startsWith "test_" then ctdcGo rest conns ran
      else
        let c1 := reset_connection conns a (get_test_db_name sd)
        let ran1 := ran ++ [a]
        let c2 := reset_connection c1 a sd.name
        ctdcGo rest c2 ran1

/-- `call_test_db_command` (signals.py lines 19-31): for every connection
whose `NAME` does not already start with `'test_'`, switch to the test
database, run the command, and switch back. -/
def call_test_db_command (conns : Conns) : Conns × List String :=
  ctdcGo (conns.map Prod.fst) conns []

/-! ## Specification-side definitions used by the theorems -/

/-- The `NAME` update applied to every non-mirror connection. -/
def updName (sd : SettingsDict) : SettingsDict :=
  { sd with name := get_test_db_name sd }

/-- Connections after renaming every alias of `P` to its test database
name. -/
def applyNames (conns : Conns) (P : List String) : Conns :=
  conns.map (fun p => (p.1, if p.1 ∈ P then updName p.2 else p.2))

/-- Aliases of non-mirror connections, in handler order. -/
def nonMirrorKeys (conns : Conns) : List String :=
  (conns.filter (fun p => decide (p.2.test_mirror = ""))).map Prod.fst

/-- The `(alias, TEST_MIRROR)` pairs of mirror connections, in handler
order — the contents of the `mirrored_aliases` accumulator. -/
def mirrorPairs (conns : Conns) : List (String × String) :=
  (conns.filter (fun p => decide (p.2.test_mirror ≠ ""))).map
    (fun p => (p.1, p.2.test_mirror))

/-- All aliases covered by a group list, in order. -/
def groupAliases (tds : List (Sig × String × List String)) : List String :=
  (tds.map aliasesOf).flatten

/-- The dependency entry the first pass records for one connection:
nothing for mirrors, the explicit `TEST_DEPENDENCIES` when the key is
present, `[default]` for other non-default aliases. -/
def depsHead (p : String × SettingsDict) : Option (String × List String) :=
  if p.2.test_mirror ≠ "" then none
  else match p.2.test_dependencies with
    | some ds => some (p.1, ds)
    | none =>
      if p.1 ≠ DEFAULT_DB_ALIAS then some (p.1, [DEFAULT_DB_ALIAS])
      else none

/-- The dependency entries the first pass accumulates, as a function of
the connections. -/
def depsList (cs : Conns) : List (String × List String) :=
  cs.filterMap depsHead

/-- The final `NAME` of a mirror connection: the test database name of
the connection it mirrors (the fallback branch is unreachable whenever
the mirror pass succeeded). -/
def mirrorName (c0 : Conns) (sd : SettingsDict) : String :=
  match lookupA c0 sd.test_mirror with
  | some tsd => get_test_db_name tsd
  | none => sd.name

/-- Connections after the second pass and the mirror-pass prefix whose
mirror aliases form `doneM`: non-mirror connections carry their test
database name, processed mirrors the name of their target. -/
def finalConns (c0 : Conns) (doneM : List String) : Conns :=
  c0.map (fun p => (p.1,
    if p.2.test_mirror = "" then updName p.2
    else if p.1 ∈ doneM then { p.2 with name := mirrorName c0 p.2 }
    else p.2))

/-- Example configuration used by witnesses: a `default` database and a
`mirror1` alias mirroring it. -/
def exampleWorld : World :=
  ⟨["app_db"],
    [("default", ⟨"app", "h", "p", "e", "", "", none, []⟩),
      ("mirror1", ⟨"app", "h", "p", "e", "", "default", none, []⟩)]⟩

/-- The world `setup_databases` produces from `exampleWorld`: both
connections point at `test_app`, the databases are untouched. -/
def exampleWorldAfter : World :=
  ⟨["app_db"],
    [("default", ⟨"test_app", "h", "p", "e", "", "", none, []⟩),
      ("mirror1", ⟨"test_app", "h", "p", "e", "", "default", none, []⟩)]⟩

/-- An emission order honours the dependencies starting from a resolved
set: each group's dependencies are resolved before it, and its aliases
become resolved for the groups after it.  This is the ordering guarantee
`dependency_ordered` is meant to provide. -/
def ConsistentFrom (dm : (Sig × String × List String) → List String)
    (resolved : List String) : List (Sig × String × List String) → Prop
  | [] => True
  | g :: rest =>
    (∀ d ∈ dm g, d ∈ resolved) ∧
      ConsistentFrom dm (resolved ++ aliasesOf g) rest

/-! # Theorems

## The `DebugList` diff helpers -/

/-- C5: `has_diff` returns `False` exactly when the collections have the
same length and — unordered — the same set of ids, or — ordered — the
same id sequence. -/
theorem has_diff_false_iff (self : DebugList Obj) (objects : List Obj)
    (ordered : Bool) :
    has_diff self objects ordered = false ↔
      (objects.length = self.items.length ∧
        if ordered then objects.map Obj.id = self.items.map Obj.id
        else (objects.map Obj.id).toFinset = (self.items.map Obj.id).toFinset) := by
  by_cases hL : objects.length = self.items.length
  · cases ordered <;>
      simp [has_diff, List.length_map, hL, decide_eq_false_iff_not, not_not]
  · cases ordered <;>
      simp [has_diff, List.length_map, hL, decide_eq_false_iff_not, not_not]

/-- C5 witness: a concrete unordered comparison where only the order of
ids differs, evaluated through the theorem. -/
theorem has_diff_false_iff_witness :
    has_diff ⟨[⟨1, "M", []⟩, ⟨2, "M", []⟩], []⟩
        [⟨2, "M", []⟩, ⟨1, "M", []⟩] false = false ↔
      (([(⟨2, "M", []⟩ : Obj), ⟨1, "M", []⟩].length =
          [(⟨1, "M", []⟩ : Obj), ⟨2, "M", []⟩].length) ∧
        if false then
          [(⟨2, "M", []⟩ : Obj), ⟨1, "M", []⟩].map Obj.id =
            [(⟨1, "M", []⟩ : Obj), ⟨2, "M", []⟩].map Obj.id
        else ([(⟨2, "M", []⟩ : Obj), ⟨1, "M", []⟩].map Obj.id).toFinset =
          ([(⟨1, "M", []⟩ : Obj), ⟨2, "M", []⟩].map Obj.id).toFinset) :=
  has_diff_false_iff ⟨[⟨1, "M", []⟩, ⟨2, "M", []⟩], []⟩
    [⟨2, "M", []⟩, ⟨1, "M", []⟩] false

/-- C6: when the lengths differ, the message built by `get_diff` starts
with the line `Expected length: {len(self)} but got {len(objects)}
objects`, followed by a newline and the rest of the message. -/
theorem get_diff_length_line (self : DebugList Obj) (objects : List Obj)
    (ordered : Bool) (h : self.items.length ≠ objects.length) :
    ∃ rest, get_diff self objects ordered =
      lengthReason self.items.length objects.length ++ "\n" ++ rest := by
  have hc : (self.items.length ≠ objects.length) = True := eq_true h
  simp only [get_diff, hc, if_true, reduceCtorEq, false_and, if_false]
  exact ⟨_, rfl⟩

/-- C6 witness: one expected object against two actual ones. -/
theorem get_diff_length_line_witness :
    ((1 : Nat) ≠ 2) ∧
      ∃ rest, get_diff ⟨[⟨1, "M", [("x", "u")]⟩], ["x"]⟩
          [⟨2, "M", [("x", "v")]⟩, ⟨3, "M", [("x", "w")]⟩] false =
        lengthReason 1 2 ++ "\n" ++ rest :=
  ⟨by decide,
    get_diff_length_line ⟨[⟨1, "M", [("x", "u")]⟩], ["x"]⟩
      [⟨2, "M", [("x", "v")]⟩, ⟨3, "M", [("x", "w")]⟩] false (by decide)⟩

/-- C7 counterexample: two equal-length collections whose id sequences
share the same id set without being permutations of each other (the
multiplicities differ); `get_order_diff` still reports `Wrong ID order`,
where the claim requires `None`. -/
theorem get_order_diff_not_perm_cex :
    ([(⟨1, "M", []⟩ : Obj), ⟨2, "M", []⟩, ⟨2, "M", []⟩].length =
        [(⟨1, "M", []⟩ : Obj), ⟨1, "M", []⟩, ⟨2, "M", []⟩].length) ∧
      get_order_diff ⟨[⟨1, "M", []⟩, ⟨1, "M", []⟩, ⟨2, "M", []⟩], []⟩
          [⟨1, "M", []⟩, ⟨2, "M", []⟩, ⟨2, "M", []⟩] formatRD =
        some "Wrong ID order\nExpect: 1 2 2\nGot:    1 1 2" ∧
      ¬ List.Perm ([1, 2, 2] : List Nat) [1, 1, 2] := by
  refine ⟨rfl, ?_, by decide⟩
  rfl

/-- C7 (amended): for equal-length collections, `get_order_diff` returns
the wrong-order message exactly when the id sequences differ but have
equal id sets (not: are permutations of each other); whenever it returns
`None`, `get_diff` with `ordered=True` produces the same message as the
unordered set-based comparison. -/
theorem get_order_diff_iff (self : DebugList Obj) (objects : List Obj)
    (h : self.items.length = objects.length) :
    ((get_order_diff self objects formatRD).isSome = true ↔
      (objects.map Obj.id ≠ self.items.map Obj.id ∧
        (objects.map Obj.id).toFinset = (self.items.map Obj.id).toFinset)) ∧
    (get_order_diff self objects formatRD = none →
      get_diff self objects true = get_diff self objects false) := by
  constructor
  · by_cases hc : objects.map Obj.id ≠ self.items.map Obj.id ∧
        (objects.map Obj.id).toFinset = (self.items.map Obj.id).toFinset
    · simp [get_order_diff, hc]
    · simp [get_order_diff, if_neg hc, hc]
  · intro h0
    have hc : (self.items.length ≠ objects.length) = False :=
      eq_false (fun hne => hne h)
    simp [get_diff, hc, h0]

/-- C7 witness: collections with disjoint id sets, where the order check
declines and both diff modes agree. -/
theorem get_order_diff_iff_witness :
    (([(⟨1, "M", []⟩ : Obj), ⟨2, "M", []⟩].length =
        [(⟨3, "M", []⟩ : Obj), ⟨4, "M", []⟩].length)) ∧
    (((get_order_diff ⟨[⟨1, "M", []⟩, ⟨2, "M", []⟩], []⟩
          [⟨3, "M", []⟩, ⟨4, "M", []⟩] formatRD).isSome = true ↔
        ([(⟨3, "M", []⟩ : Obj), ⟨4, "M", []⟩].map Obj.id ≠
            [(⟨1, "M", []⟩ : Obj), ⟨2, "M", []⟩].map Obj.id ∧
          ([(⟨3, "M", []⟩ : Obj), ⟨4, "M", []⟩].map Obj.id).toFinset =
            ([(⟨1, "M", []⟩ : Obj), ⟨2, "M", []⟩].map Obj.id).toFinset)) ∧
      (get_order_diff ⟨[⟨1, "M", []⟩, ⟨2, "M", []⟩], []⟩
          [⟨3, "M", []⟩, ⟨4, "M", []⟩] formatRD = none →
        get_diff ⟨[⟨1, "M", []⟩, ⟨2, "M", []⟩], []⟩
            [⟨3, "M", []⟩, ⟨4, "M", []⟩] true =
          get_diff ⟨[⟨1, "M", []⟩, ⟨2, "M", []⟩], []⟩
            [⟨3, "M", []⟩, ⟨4, "M", []⟩] false)) :=
  ⟨rfl, get_order_diff_iff ⟨[⟨1, "M", []⟩, ⟨2, "M", []⟩], []⟩
    [⟨3, "M", []⟩, ⟨4, "M", []⟩] rfl⟩

/-- C9: in the wrong-order message the ids printed after `Expect:` are
those of the `objects` argument (the actual objects) and the ids printed
after `Got:` are those of `self` (the expected objects) — the labels are
attached to the opposite collections from what their names suggest. -/
theorem get_order_diff_labels (self : DebugList Obj) (objects : List Obj)
    (message : String → String → String)
    (h : objects.map Obj.id ≠ self.items.map Obj.id ∧
      (objects.map Obj.id).toFinset = (self.items.map Obj.id).toFinset) :
    get_order_diff self objects message =
      some (message "Wrong ID order"
        ("Expect: " ++ joinIds (objects.map Obj.id) ++
          "\nGot:    " ++ joinIds (self.items.map Obj.id))) := by
  simp [get_order_diff, h]

/-- C9 witness: expected ids `1 2`, actual ids `2 1`; the message
labels `2 1` as `Expect:` and `1 2` as `Got:`. -/
theorem get_order_diff_labels_witness :
    (([(⟨2, "M", []⟩ : Obj), ⟨1, "M", []⟩].map Obj.id ≠
        [(⟨1, "M", []⟩ : Obj), ⟨2, "M", []⟩].map Obj.id) ∧
      ([(⟨2, "M", []⟩ : Obj), ⟨1, "M", []⟩].map Obj.id).toFinset =
        ([(⟨1, "M", []⟩ : Obj), ⟨2, "M", []⟩].map Obj.id).toFinset) ∧
    get_order_diff ⟨[⟨1, "M", []⟩, ⟨2, "M", []⟩], []⟩
        [⟨2, "M", []⟩, ⟨1, "M", []⟩] formatRD =
      some (formatRD "Wrong ID order"
        ("Expect: " ++ joinIds ([(⟨2, "M", []⟩ : Obj), ⟨1, "M", []⟩].map Obj.id) ++
          "\nGot:    " ++ joinIds ([(⟨1, "M", []⟩ : Obj), ⟨2, "M", []⟩].map Obj.id))) :=
  ⟨⟨by decide, by decide⟩,
    get_order_diff_labels ⟨[⟨1, "M", []⟩, ⟨2, "M", []⟩], []⟩
      [⟨2, "M", []⟩, ⟨1, "M", []⟩] formatRD ⟨by decide, by decide⟩⟩

/-! ## `model_factory` -/

theorem normalize_mkListKw (kw : List (String × List PyVal)) :
    normalizeKwargs (mkListKw kw) = mkListKw kw := by
  cases kw with
  | nil => rfl
  | cons p rest => simp [mkListKw, normalizeKwargs, PyVal.isList]

theorem keys_mkListKw (kw : List (String × List PyVal)) :
    (mkListKw kw).map Prod.fst = kw.map Prod.fst := by
  simp [mkListKw]

theorem mapM_asList (kw : List (String × List PyVal)) :
    ((mkListKw kw).map Prod.snd).mapM PyVal.asList? = some (kw.map Prod.snd) := by
  induction kw with
  | nil => rfl
  | cons p rest ih =>
    have hcons : (mkListKw (p :: rest)).map Prod.snd
        = PyVal.listOf p.2 :: (mkListKw rest).map Prod.snd := by
      simp [mkListKw]
    rw [hcons, List.mapM_cons, ih]
    rfl

theorem minLen_le : ∀ (ls : List (List PyVal)), ∀ x ∈ ls, minLen ls ≤ x.length
  | [], _, hx => absurd hx (List.not_mem_nil _)
  | [l], x, hx => by
    rw [List.mem_singleton] at hx
    subst hx
    exact le_of_eq rfl
  | l :: r :: t, x, hx => by
    rcases List.mem_cons.mp hx with rfl | hx
    · exact min_le_left _ _
    · exact le_trans (min_le_right _ _) (minLen_le (r :: t) x hx)

theorem filterMapGet_eq_map (i : Nat) :
    ∀ (ls : List (List PyVal)), (∀ l ∈ ls, i < l.length) →
      ls.filterMap (fun l => l.get? i) = ls.map (fun l => nthD l i)
  | [], _ => rfl
  | l :: rest, h => by
    have h1 : i < l.length := h l (List.mem_cons_self _ _)
    have hsome : l.get? i = some (nthD l i) := by
      unfold nthD
      rw [List.get?_eq_get h1]
      rfl
    have ih := filterMapGet_eq_map i rest (fun x hx => h x (List.mem_cons_of_mem _ hx))
    simp only [List.filterMap_cons, hsome, ih, List.map_cons]

theorem pyZip_eq (ls : List (List PyVal)) :
    pyZip ls = (List.range (minLen ls)).map (fun i => ls.map (fun l => nthD l i)) := by
  cases ls with
  | nil => rfl
  | cons l rest =>
    show (List.range (minLen (l :: rest))).map _ = _
    apply List.map_congr_left
    intro i hi
    rw [List.mem_range] at hi
    exact filterMapGet_eq_map i (l :: rest)
      (fun x hx => lt_of_lt_of_le hi (minLen_le (l :: rest) x hx))

theorem pyZip_length (ls : List (List PyVal)) :
    (pyZip ls).length = minLen ls := by
  rw [pyZip_eq, List.length_map, List.length_range]

/-- The instance list a `model_factory` call with list-valued keyword
arguments builds: one instance per index below the shortest list length,
pairing the keys with the values at that index. -/
theorem model_factory_models (save : Bool) (kw : List (String × List PyVal))
    (h : kw ≠ []) :
    model_factory save (mkListKw kw) =
      (fun models =>
        if models.length = 1 then some (.single models.headI)
        else some (.debugList ⟨models, kw.map Prod.fst⟩))
      ((List.range (minLen (kw.map Prod.snd))).map
        (fun i => (⟨save, (kw.map Prod.fst).zip
          ((kw.map Prod.snd).map (fun l => nthD l i))⟩ : Instance))) := by
  have hne : mkListKw kw ≠ [] := by
    cases kw with
    | nil => exact absurd rfl h
    | cons p rest => simp [mkListKw]
  have hie : (mkListKw kw).isEmpty = false := by
    cases kw with
    | nil => exact absurd rfl h
    | cons p rest => simp [mkListKw]
  simp only [model_factory, normalize_mkListKw, mapM_asList, keys_mkListKw, hie,
    Bool.false_eq_true, if_false, pyZip_eq, List.map_map]
  rfl

theorem countInstances_mkListKw (save : Bool) (kw : List (String × List PyVal))
    (h : kw ≠ []) :
    countInstances (model_factory save (mkListKw kw)) =
      some (minLen (kw.map Prod.snd)) := by
  rw [model_factory_models save kw h]
  by_cases hc : minLen (kw.map Prod.snd) = 1
  · simp [countInstances, List.length_map, List.length_range, hc]
  · simp [countInstances, List.length_map, List.length_range, hc]

theorem resInstances_mkListKw (save : Bool) (kw : List (String × List PyVal))
    (h : kw ≠ []) :
    resInstances (model_factory save (mkListKw kw)) =
      (List.range (minLen (kw.map Prod.snd))).map
        (fun i => (⟨save, (kw.map Prod.fst).zip
          ((kw.map Prod.snd).map (fun l => nthD l i))⟩ : Instance)) := by
  rw [model_factory_models save kw h]
  have hr1 : List.range 1 = [0] := rfl
  by_cases hc : minLen (kw.map Prod.snd) = 1
  · simp [resInstances, List.length_map, List.length_range, hc, hr1]
  · simp [resInstances, List.length_map, List.length_range, hc]

/-- C1 counterexample: two keyword fields with two values each.  The
cartesian product has four combinations, but `model_factory` builds only
two instances (`zip`, not product). -/
theorem model_factory_not_cartesian :
    countInstances (model_factory false
        [("a", .listOf [.atom 0, .atom 1]), ("b", .listOf [.atom 2, .atom 3])]) =
      some 2 ∧
    (2 : Nat) * 2 ≠ 2 := ⟨rfl, by decide⟩

/-- C1 (amended): for non-empty list-valued keyword arguments,
`model_factory` constructs `min(n1, ..., nk)` instances — one per common
index of the per-field value lists, pairing each field with its value at
that index (positional `zip` semantics, not the cartesian product). -/
theorem model_factory_zip_semantics (save : Bool)
    (kw : List (String × List PyVal)) (h : kw ≠ []) :
    countInstances (model_factory save (mkListKw kw)) =
      some (minLen (kw.map Prod.snd)) ∧
    resInstances (model_factory save (mkListKw kw)) =
      (List.range (minLen (kw.map Prod.snd))).map
        (fun i => (⟨save, (kw.map Prod.fst).zip
          ((kw.map Prod.snd).map (fun l => nthD l i))⟩ : Instance)) :=
  ⟨countInstances_mkListKw save kw h, resInstances_mkListKw save kw h⟩

/-- C1 witness: the `2 × 2` call from the counterexample evaluated
through the amended theorem; the count is the minimum length `2`. -/
theorem model_factory_zip_semantics_witness :
    ([("a", [PyVal.atom 0, PyVal.atom 1]), ("b", [PyVal.atom 2, PyVal.atom 3])] ≠
      ([] : List (String × List PyVal))) ∧
    (countInstances (model_factory false (mkListKw
        [("a", [PyVal.atom 0, PyVal.atom 1]), ("b", [PyVal.atom 2, PyVal.atom 3])])) =
      some (minLen ([("a", [PyVal.atom 0, PyVal.atom 1]),
        ("b", [PyVal.atom 2, PyVal.atom 3])].map Prod.snd)) ∧
      resInstances (model_factory false (mkListKw
        [("a", [PyVal.atom 0, PyVal.atom 1]), ("b", [PyVal.atom 2, PyVal.atom 3])])) =
        (List.range (minLen ([("a", [PyVal.atom 0, PyVal.atom 1]),
            ("b", [PyVal.atom 2, PyVal.atom 3])].map Prod.snd))).map
          (fun i => (⟨false, ([("a", [PyVal.atom 0, PyVal.atom 1]),
            ("b", [PyVal.atom 2, PyVal.atom 3])].map Prod.fst).zip
            (([("a", [PyVal.atom 0, PyVal.atom 1]),
              ("b", [PyVal.atom 2, PyVal.atom 3])].map Prod.snd).map
              (fun l => nthD l i))⟩ : Instance))) ∧
    minLen ([("a", [PyVal.atom 0, PyVal.atom 1]),
      ("b", [PyVal.atom 2, PyVal.atom 3])].map Prod.snd) = 2 :=
  ⟨List.cons_ne_nil _ _,
    model_factory_zip_semantics false
      [("a", [PyVal.atom 0, PyVal.atom 1]), ("b", [PyVal.atom 2, PyVal.atom 3])]
      (List.cons_ne_nil _ _),
    rfl⟩

/-- C8 counterexample: one singleton list and one two-element list.  Not
every value list has length one, yet exactly one instance is built
(`zip` truncates to the shortest list) and the bare instance — not a
`DebugList` — is returned, where the claim requires a `DebugList`. -/
theorem model_factory_single_shape_cex :
    isSingle (model_factory false
        [("a", .listOf [.atom 0]), ("b", .listOf [.atom 1, .atom 2])]) = true ∧
    ¬ (∀ l ∈ [[PyVal.atom 0], [PyVal.atom 1, PyVal.atom 2]], l.length = 1) ∧
    ([("a", PyVal.listOf [PyVal.atom 0]),
      ("b", PyVal.listOf [PyVal.atom 1, PyVal.atom 2])] ≠
        ([] : List (String × PyVal))) :=
  ⟨rfl, by decide, List.cons_ne_nil _ _⟩

/-- C8 (amended): for list-valued keyword arguments, `model_factory`
returns the bare single instance exactly when it constructs one instance,
which happens when there are no keyword arguments or when the shortest
value list (not: every value list) has length one; in every other case it
returns a `DebugList` whose `fields` attribute is the list of keyword
names. -/
theorem model_factory_single_iff (save : Bool)
    (kw : List (String × List PyVal)) :
    (isSingle (model_factory save (mkListKw kw)) = true ↔
      (kw = [] ∨ minLen (kw.map Prod.snd) = 1)) ∧
    (∀ dl, model_factory save (mkListKw kw) = some (.debugList dl) →
      dl.fields = kw.map Prod.fst) := by
  by_cases h : kw = []
  · subst h
    constructor
    · have hs : isSingle (model_factory save (mkListKw [])) = true := rfl
      simp [hs]
    · intro dl hdl
      have hv : model_factory save (mkListKw []) =
          some (.single ⟨save, []⟩) := rfl
      rw [hv] at hdl
      exact absurd hdl (by simp)
  · rw [model_factory_models save kw h]
    constructor
    · by_cases hc : minLen (kw.map Prod.snd) = 1
      · simp [isSingle, List.length_map, List.length_range, hc, h]
      · simp [isSingle, List.length_map, List.length_range, hc, h]
    · intro dl hdl
      by_cases hc : minLen (kw.map Prod.snd) = 1
      · simp [List.length_map, List.length_range, hc] at hdl
      · simp [List.length_map, List.length_range, hc] at hdl
        rw [← hdl]

/-- C8 witness: the counterexample input evaluated through the amended
theorem — the shortest list has length one, so the bare instance comes
back. -/
theorem model_factory_single_iff_witness :
    ((isSingle (model_factory false (mkListKw
        [("a", [PyVal.atom 0]), ("b", [PyVal.atom 1, PyVal.atom 2])]))) = true ↔
      ([("a", [PyVal.atom 0]), ("b", [PyVal.atom 1, PyVal.atom 2])] =
          ([] : List (String × List PyVal)) ∨
        minLen ([("a", [PyVal.atom 0]),
          ("b", [PyVal.atom 1, PyVal.atom 2])].map Prod.snd) = 1)) ∧
    (∀ dl, model_factory false (mkListKw
        [("a", [PyVal.atom 0]), ("b", [PyVal.atom 1, PyVal.atom 2])]) =
          some (.debugList dl) →
      dl.fields = [("a", [PyVal.atom 0]),
        ("b", [PyVal.atom 1, PyVal.atom 2])].map Prod.fst) :=
  model_factory_single_iff false
    [("a", [PyVal.atom 0]), ("b", [PyVal.atom 1, PyVal.atom 2])]

/-! ## The signal helper `call_test_db_command` -/

theorem lookupA_cons {α : Type} (p : String × α) (rest : List (String × α))
    (key : String) :
    lookupA (p :: rest) key = if p.1 = key then some p.2 else lookupA rest key :=
  rfl

theorem setName_cons (p : String × SettingsDict) (rest : Conns) (a x : String) :
    setName (p :: rest) a x =
      (p.1, if p.1 = a then { p.2 with name := x } else p.2) :: setName rest a x :=
  rfl

theorem setName_absent : ∀ (c : Conns) (a x : String),
    a ∉ c.map Prod.fst → setName c a x = c
  | [], _, _, _ => rfl
  | p :: rest, a, x, h => by
    rw [List.map_cons, List.mem_cons, not_or] at h
    rw [setName_cons, if_neg (fun hc => h.1 hc.symm),
      setName_absent rest a x h.2]

theorem setName_setName_cancel : ∀ (c : Conns) (a : String) (sd : SettingsDict)
    (x : String), (c.map Prod.fst).Nodup → lookupA c a = some sd →
    setName (setName c a x) a sd.name = c
  | [], _, _, _, _, _ => rfl
  | p :: rest, a, sd, x, hnd, hl => by
    rw [List.map_cons, List.nodup_cons] at hnd
    by_cases hpa : p.1 = a
    · have hsd : sd = p.2 := by
        rw [lookupA_cons, if_pos hpa] at hl
        exact (Option.some_inj.mp hl).symm
      have habs : a ∉ rest.map Prod.fst := hpa ▸ hnd.1
      rw [setName_cons, if_pos hpa, setName_cons, if_pos hpa,
        setName_absent rest a x habs, setName_absent rest a sd.name habs, hsd]
    · rw [setName_cons, if_neg hpa, setName_cons, if_neg hpa,
        setName_setName_cancel rest a sd x hnd.2
          (by rwa [lookupA_cons, if_neg hpa] at hl)]

theorem ctdcGo_spec (c : Conns) (hnd : (c.map Prod.fst).Nodup) :
    ∀ (aliases : List String) (ran : List String),
      (ctdcGo aliases c ran).1 = c ∧
      (ctdcGo aliases c ran).2 = ran ++ aliases.filter (fun a =>
        match lookupA c a with
        | some sd => !(sd.name.startsWith "test_")
        | none => false)
  | [], ran => by simp [ctdcGo]
  | a :: rest, ran => by
    have ih := ctdcGo_spec c hnd rest
    cases hla : lookupA c a with
    | none => simp [ctdcGo, hla, List.filter_cons, ih]
    | some sd =>
      by_cases hs : sd.name.startsWith "test_"
      · simp [ctdcGo, hla, hs, List.filter_cons, ih]
      · have hc2 : setName (setName c a (get_test_db_name sd)) a sd.name = c :=
          setName_setName_cancel c a sd (get_test_db_name sd) hnd hla
        simp only [ctdcGo, hla, hs, reset_connection, Bool.false_eq_true,
          if_false, hc2]
        refine ⟨(ih (ran ++ [a])).1, ?_⟩
        rw [(ih (ran ++ [a])).2, List.filter_cons, hla]
        simp [hs]

theorem keysFilter_eq (c : Conns) (hnd : (c.map Prod.fst).Nodup) :
    (c.map Prod.fst).filter (fun a =>
        match lookupA c a with
        | some sd => !(sd.name.startsWith "test_")
        | none => false) =
      (c.filter (fun p => !(p.2.name.startsWith "test_"))).map Prod.fst := by
  induction c with
  | nil => rfl
  | cons p rest ih =>
    rw [List.map_cons, List.nodup_cons] at hnd
    have hcongr : ∀ a ∈ rest.map Prod.fst,
        (fun a => match lookupA (p :: rest) a with
          | some sd => !(sd.name.startsWith "test_")
          | none => false) a =
        (fun a => match lookupA rest a with
          | some sd => !(sd.name.startsWith "test_")
          | none => false) a := by
      intro a ha
      have hpa : p.1 ≠ a := fun hc => hnd.1 (hc ▸ ha)
      show (match lookupA (p :: rest) a with
        | some sd => !(sd.name.startsWith "test_")
        | none => false) =
        (match lookupA rest a with
        | some sd => !(sd.name.startsWith "test_")
        | none => false)
      rw [lookupA_cons, if_neg hpa]
    rw [List.map_cons, List.filter_cons, List.filter_cons]
    have hphead : lookupA (p :: rest) p.1 = some p.2 := by
      rw [lookupA_cons, if_pos rfl]
    simp only [hphead, List.filter_congr hcongr, ih hnd.2]
    by_cases hs : p.2.name.startsWith "test_" <;> simp [hs]

/-- C10: `call_test_db_command` runs the management command exactly on
the connections whose current `NAME` does not start with `'test_'`, and
afterwards every connection's `settings_dict['NAME']` — indeed its whole
settings dictionary — is back to its value from before the call. -/
theorem call_test_db_command_frame (conns : Conns)
    (hnd : (conns.map Prod.fst).Nodup) :
    (call_test_db_command conns).1 = conns ∧
    (call_test_db_command conns).2 =
      (conns.filter (fun p => !(p.2.name.startsWith "test_"))).map Prod.fst := by
  have h := ctdcGo_spec conns hnd (conns.map Prod.fst) []
  refine ⟨h.1, ?_⟩
  rw [call_test_db_command, h.2, List.nil_append, keysFilter_eq conns hnd]

/-- C10 witness: two connections, one already on a `test_` name.  The
command runs only on `default`, and the connection states are unchanged. -/
theorem call_test_db_command_frame_witness :
    (([("default", (⟨"app", "h", "p", "e", "", "", none, []⟩ : SettingsDict)),
      ("other", (⟨"test_other", "h", "p", "e", "", "", none, []⟩ :
        SettingsDict))].map Prod.fst).Nodup) ∧
    ((call_test_db_command
        [("default", (⟨"app", "h", "p", "e", "", "", none, []⟩ : SettingsDict)),
        ("other", (⟨"test_other", "h", "p", "e", "", "", none, []⟩ :
          SettingsDict))]).1 =
      [("default", (⟨"app", "h", "p", "e", "", "", none, []⟩ : SettingsDict)),
      ("other", (⟨"test_other", "h", "p", "e", "", "", none, []⟩ :
        SettingsDict))] ∧
    (call_test_db_command
        [("default", (⟨"app", "h", "p", "e", "", "", none, []⟩ : SettingsDict)),
        ("other", (⟨"test_other", "h", "p", "e", "", "", none, []⟩ :
          SettingsDict))]).2 =
      ([("default", (⟨"app", "h", "p", "e", "", "", none, []⟩ : SettingsDict)),
      ("other", (⟨"test_other", "h", "p", "e", "", "", none, []⟩ :
        SettingsDict))].filter
          (fun p => !(p.2.name.startsWith "test_"))).map Prod.fst) :=
  ⟨by decide, call_test_db_command_frame _ (by decide)⟩

/-! ## The runner: `teardown_databases` -/

/-- C2: `teardown_databases` is a no-op — it drops no database, changes
no connection settings, and leaves the whole world untouched, so test
databases persist between runs. -/
theorem teardown_databases_noop {α : Type} (old_config : α) (w : World) :
    teardown_databases old_config w = w := rfl

/-! ## The runner: dependency construction and ordering (C4) -/

theorem groupAliases_nil : groupAliases [] = [] := rfl

theorem groupAliases_cons (g : Sig × String × List String)
    (tds : List (Sig × String × List String)) :
    groupAliases (g :: tds) = aliasesOf g ++ groupAliases tds := rfl

theorem ConsistentFrom_cons (dm : (Sig × String × List String) → List String)
    (res : List String) (g : Sig × String × List String)
    (rest : List (Sig × String × List String)) :
    ConsistentFrom dm res (g :: rest) =
      ((∀ d ∈ dm g, d ∈ res) ∧
        ConsistentFrom dm (res ++ aliasesOf g) rest) := rfl

theorem foldl_firstPass_deps : ∀ (cs : Conns) (fp : FirstPass),
    (cs.foldl firstPassStep fp).dependencies = fp.dependencies ++ depsList cs
  | [], fp => by simp [depsList]
  | c :: cs, fp => by
    rw [List.foldl_cons, foldl_firstPass_deps cs]
    by_cases hm : c.2.test_mirror ≠ ""
    · simp [firstPassStep, hm, depsList, depsHead, List.filterMap_cons]
    · have hm' : c.2.test_mirror = "" := not_not.mp hm
      cases htd : c.2.test_dependencies with
      | some ds =>
        simp [firstPassStep, hm, hm', htd, depsList, depsHead,
          List.filterMap_cons, List.append_assoc]
      | none =>
        by_cases hda : c.1 ≠ DEFAULT_DB_ALIAS
        · simp [firstPassStep, hm, hm', htd, hda, depsList, depsHead,
            List.filterMap_cons, List.append_assoc]
        · simp [firstPassStep, hm, hm', htd, hda, depsList, depsHead,
            List.filterMap_cons]

theorem firstPass_deps (conns : Conns) :
    (firstPass conns).dependencies = depsList conns := by
  rw [firstPass, foldl_firstPass_deps]
  rfl

theorem depsList_cons (p : String × SettingsDict) (cs : Conns) :
    depsList (p :: cs) =
      (match depsHead p with
      | none => depsList cs
      | some e => e :: depsList cs) := by
  rw [depsList, List.filterMap_cons]
  cases depsHead p <;> rfl

theorem depsHead_keyed (p : String × SettingsDict) (e : String × List String)
    (h : depsHead p = some e) : e.1 = p.1 := by
  rw [depsHead] at h
  by_cases h1 : p.2.test_mirror ≠ ""
  · rw [if_pos h1] at h
    simp at h
  · rw [if_neg h1] at h
    cases h2 : p.2.test_dependencies with
    | some ds =>
      rw [h2] at h
      cases h
      rfl
    | none =>
      rw [h2] at h
      by_cases h3 : p.1 ≠ DEFAULT_DB_ALIAS
      · rw [if_pos h3] at h
        cases h
        rfl
      · rw [if_neg h3] at h
        simp at h

theorem depsList_lookup : ∀ (cs : Conns), (cs.map Prod.fst).Nodup →
    ∀ a sd, (a, sd) ∈ cs → sd.test_mirror = "" → a ≠ DEFAULT_DB_ALIAS →
      sd.test_dependencies = none →
      lookupA (depsList cs) a = some [DEFAULT_DB_ALIAS]
  | [], _, a, sd, h, _, _, _ => absurd h (List.not_mem_nil _)
  | p :: cs, hnd, a, sd, h, hm, hda, htd => by
    rw [List.map_cons, List.nodup_cons] at hnd
    rcases List.mem_cons.mp h with heq | hmem
    · subst heq
      rw [depsList_cons]
      have hscrut : depsHead (a, sd) = some (a, [DEFAULT_DB_ALIAS]) := by
        simp [depsHead, hm, htd, hda]
      rw [hscrut]
      show lookupA ((a, [DEFAULT_DB_ALIAS]) :: depsList cs) a =
        some [DEFAULT_DB_ALIAS]
      rw [lookupA_cons, if_pos rfl]
    · have ha : a ∈ cs.map Prod.fst := List.mem_map.mpr ⟨(a, sd), hmem, rfl⟩
      have hpa : p.1 ≠ a := fun hc => hnd.1 (hc ▸ ha)
      have ih := depsList_lookup cs hnd.2 a sd hmem hm hda htd
      rw [depsList_cons]
      cases hscrut : depsHead p with
      | none => exact ih
      | some e =>
        have he1 : e.1 = p.1 := depsHead_keyed p e hscrut
        show lookupA (e :: depsList cs) a = some [DEFAULT_DB_ALIAS]
        rw [lookupA_cons, if_neg (he1 ▸ hpa)]
        exact ih

theorem onePass_spec (dm : (Sig × String × List String) → List String) :
    ∀ (tds : List (Sig × String × List String)) (res : List String),
      ConsistentFrom dm res (onePass dm tds res).1 ∧
      (onePass dm tds res).2.2 = res ++ groupAliases (onePass dm tds res).1
  | [], res => ⟨trivial, by simp [onePass, groupAliases]⟩
  | g :: rest, res => by
    by_cases hc : (dm g).all (fun d => decide (d ∈ res)) = true
    · have ih := onePass_spec dm rest (res ++ aliasesOf g)
      have hop : onePass dm (g :: rest) res =
          (g :: (onePass dm rest (res ++ aliasesOf g)).1,
            (onePass dm rest (res ++ aliasesOf g)).2.1,
            (onePass dm rest (res ++ aliasesOf g)).2.2) := by
        simp only [onePass, hc, if_true]
      rw [hop]
      have hdm : ∀ d ∈ dm g, d ∈ res := by
        simpa [List.all_eq_true, decide_eq_true_eq] using hc
      refine ⟨⟨hdm, ih.1⟩, ?_⟩
      rw [ih.2, groupAliases_cons, List.append_assoc]
    · have ih := onePass_spec dm rest res
      have hop : onePass dm (g :: rest) res =
          ((onePass dm rest res).1, g :: (onePass dm rest res).2.1,
            (onePass dm rest res).2.2) := by
        simp only [onePass, hc, Bool.false_eq_true, if_false]
      rw [hop]
      exact ih

theorem ConsistentFrom_append (dm : (Sig × String × List String) → List String) :
    ∀ (o o' : List (Sig × String × List String)) (res : List String),
      ConsistentFrom dm res o → ConsistentFrom dm (res ++ groupAliases o) o' →
      ConsistentFrom dm res (o ++ o')
  | [], o', res, _, h2 => by simpa [groupAliases] using h2
  | g :: o, o', res, h1, h2 => by
    rw [ConsistentFrom_cons] at h1
    refine ⟨h1.1, ConsistentFrom_append dm o o' (res ++ aliasesOf g) h1.2 ?_⟩
    rw [List.append_assoc]
    rw [groupAliases_cons] at h2
    exact (List.append_assoc res (aliasesOf g) (groupAliases o)) ▸ h2

theorem depLoopAux_nil (dm : (Sig × String × List String) → List String)
    (f : Nat) (res : List String) : depLoopAux dm f [] res = some [] := by
  cases f <;> rfl

theorem depLoopAux_succ (dm : (Sig × String × List String) → List String)
    (f : Nat) (g : Sig × String × List String)
    (rest : List (Sig × String × List String)) (res : List String) :
    depLoopAux dm (f + 1) (g :: rest) res =
      (if (onePass dm (g :: rest) res).1 = [] then none
        else (depLoopAux dm f (onePass dm (g :: rest) res).2.1
            (onePass dm (g :: rest) res).2.2).map
          (fun out => (onePass dm (g :: rest) res).1 ++ out)) := rfl

theorem depLoopAux_consistent (dm : (Sig × String × List String) → List String) :
    ∀ (fuel : Nat) (tds : List (Sig × String × List String))
      (res : List String) (out : List (Sig × String × List String)),
      depLoopAux dm fuel tds res = some out → ConsistentFrom dm res out
  | fuel, [], res, out => by
    intro h
    rw [depLoopAux_nil] at h
    cases h
    trivial
  | 0, g :: rest, res, out => by
    intro h
    exact absurd h (by rw [show depLoopAux dm 0 (g :: rest) res = none from rfl]
                       exact nofun)
  | fuel + 1, g :: rest, res, out => by
    intro h
    rw [depLoopAux_succ] at h
    by_cases hr : (onePass dm (g :: rest) res).1 = []
    · rw [if_pos hr] at h
      cases h
    · rw [if_neg hr, Option.map_eq_some'] at h
      rcases h with ⟨out', hout', hcat⟩
      have hcons := (onePass_spec dm (g :: rest) res).1
      have hres := (onePass_spec dm (g :: rest) res).2
      have ih := depLoopAux_consistent dm fuel
        (onePass dm (g :: rest) res).2.1 (onePass dm (g :: rest) res).2.2
        out' hout'
      rw [hres] at ih
      rw [← hcat]
      exact ConsistentFrom_append dm (onePass dm (g :: rest) res).1 out'
        res hcons ih

theorem dependency_ordered_consistent (tds : List (Sig × String × List String))
    (deps : List (String × List String))
    (out : List (Sig × String × List String))
    (h : dependency_ordered tds deps = some out) :
    ConsistentFrom (groupDeps deps) [] out := by
  unfold dependency_ordered at h
  by_cases hc : tds.all (fun g =>
      (groupDeps deps g).all (fun d => decide (d ∉ aliasesOf g))) = true
  · rw [if_pos hc] at h
    exact depLoopAux_consistent _ _ _ _ _ h
  · rw [if_neg hc] at h
    cases h

/-- C4: in `setup_databases`, every non-mirror alias other than the
default alias without an explicit `TEST_DEPENDENCIES` entry is assigned
the dependency list `[default]`, and any order `dependency_ordered`
produces is consistent with the dependency map: each group's
dependencies are contained in the resolved set accumulated from the
groups before it (starting from the empty resolved set). -/
theorem setup_dependencies (conns : Conns)
    (hnd : (conns.map Prod.fst).Nodup) :
    (∀ a sd, (a, sd) ∈ conns → sd.test_mirror = "" → a ≠ DEFAULT_DB_ALIAS →
      sd.test_dependencies = none →
      lookupA (firstPass conns).dependencies a = some [DEFAULT_DB_ALIAS]) ∧
    (∀ out, dependency_ordered (firstPass conns).test_databases
        (firstPass conns).dependencies = some out →
      ConsistentFrom (groupDeps (firstPass conns).dependencies) [] out) := by
  constructor
  · intro a sd hmem hm hda htd
    rw [firstPass_deps]
    exact depsList_lookup conns hnd a sd hmem hm hda htd
  · intro out hout
    exact dependency_ordered_consistent _ _ _ hout

/-- C4 witness: a `default` database and a `second` database with no
explicit dependencies; `second` is assigned `[default]` and any
successful ordering is dependency-consistent. -/
theorem setup_dependencies_witness :
    (([("default", (⟨"d", "h", "p", "e", "", "", none, []⟩ : SettingsDict)),
      ("second", (⟨"s", "h", "p", "e", "", "", none, []⟩ : SettingsDict))].map
        Prod.fst).Nodup) ∧
    ((∀ a sd, (a, sd) ∈
        [("default", (⟨"d", "h", "p", "e", "", "", none, []⟩ : SettingsDict)),
          ("second", (⟨"s", "h", "p", "e", "", "", none, []⟩ : SettingsDict))] →
        sd.test_mirror = "" → a ≠ DEFAULT_DB_ALIAS →
        sd.test_dependencies = none →
        lookupA (firstPass
          [("default", (⟨"d", "h", "p", "e", "", "", none, []⟩ : SettingsDict)),
            ("second", (⟨"s", "h", "p", "e", "", "", none, []⟩ :
              SettingsDict))]).dependencies a = some [DEFAULT_DB_ALIAS]) ∧
      (∀ out, dependency_ordered (firstPass
          [("default", (⟨"d", "h", "p", "e", "", "", none, []⟩ : SettingsDict)),
            ("second", (⟨"s", "h", "p", "e", "", "", none, []⟩ :
              SettingsDict))]).test_databases
          (firstPass
          [("default", (⟨"d", "h", "p", "e", "", "", none, []⟩ : SettingsDict)),
            ("second", (⟨"s", "h", "p", "e", "", "", none, []⟩ :
              SettingsDict))]).dependencies = some out →
        ConsistentFrom (groupDeps (firstPass
          [("default", (⟨"d", "h", "p", "e", "", "", none, []⟩ : SettingsDict)),
            ("second", (⟨"s", "h", "p", "e", "", "", none, []⟩ :
              SettingsDict))]).dependencies) [] out)) :=
  ⟨by decide, setup_dependencies _ (by decide)⟩

/-! ## The runner: `setup_databases` frame property (C3)

### Association-list toolkit -/

theorem lookupA_mapVal {α β : Type} (f : String → α → β) :
    ∀ (l : List (String × α)) (k : String),
      lookupA (l.map (fun p => (p.1, f p.1 p.2))) k = (lookupA l k).map (f k)
  | [], _ => rfl
  | p :: rest, k => by
    rw [List.map_cons, lookupA_cons, lookupA_cons]
    by_cases hk : p.1 = k
    · rw [if_pos hk, if_pos hk, hk]
      rfl
    · rw [if_neg hk, if_neg hk, lookupA_mapVal f rest k]

theorem lookupA_nodup_mem {α : Type} :
    ∀ (l : List (String × α)), (l.map Prod.fst).Nodup →
      ∀ p ∈ l, lookupA l p.1 = some p.2
  | [], _, p, hp => absurd hp (List.not_mem_nil _)
  | q :: rest, hnd, p, hp => by
    rw [List.map_cons, List.nodup_cons] at hnd
    rcases List.mem_cons.mp hp with heq | hmem
    · subst heq
      rw [lookupA_cons, if_pos rfl]
    · have hp1 : p.1 ∈ rest.map Prod.fst := List.mem_map.mpr ⟨p, hmem, rfl⟩
      have hq : q.1 ≠ p.1 := fun hc => hnd.1 (hc ▸ hp1)
      rw [lookupA_cons, if_neg hq]
      exact lookupA_nodup_mem rest hnd.2 p hmem

theorem lookupA_mem {α : Type} :
    ∀ (l : List (String × α)) (k : String) (v : α),
      lookupA l k = some v → (k, v) ∈ l
  | [], k, v, h => by cases h
  | p :: rest, k, v, h => by
    rw [lookupA_cons] at h
    by_cases hk : p.1 = k
    · rw [if_pos hk] at h
      cases h
      exact hk ▸ List.mem_cons_self _ _
    · rw [if_neg hk] at h
      exact List.mem_cons_of_mem _ (lookupA_mem rest k v h)

theorem keys_mapVal {α β : Type} (f : String → α → β) (l : List (String × α)) :
    (l.map (fun p => (p.1, f p.1 p.2))).map Prod.fst = l.map Prod.fst := by
  rw [List.map_map]
  exact List.map_congr_left (fun p _ => rfl)

/-! ### `applyNames` and the per-alias renaming step -/

theorem applyNames_eq_mapVal (c : Conns) (P : List String) :
    applyNames c P =
      c.map (fun p => (p.1, if p.1 ∈ P then updName p.2 else p.2)) := rfl

theorem applyNames_nil (c : Conns) : applyNames c [] = c := by
  simp [applyNames]

theorem applyNames_lookup (c : Conns) (P : List String) (a : String) :
    lookupA (applyNames c P) a =
      (lookupA c a).map (fun sd => if a ∈ P then updName sd else sd) :=
  lookupA_mapVal (fun k sd => if k ∈ P then updName sd else sd) c a

theorem applyNames_keys (c : Conns) (P : List String) :
    (applyNames c P).map Prod.fst = c.map Prod.fst :=
  keys_mapVal (fun k sd => if k ∈ P then updName sd else sd) c

theorem setName_mapVal (c : Conns) (a n : String) :
    setName c a n =
      c.map (fun p => (p.1, if p.1 = a then { p.2 with name := n } else p.2)) :=
  rfl

theorem setName_applyNames (c0 : Conns) (P : List String) (a : String)
    (sd : SettingsDict) (hnd : (c0.map Prod.fst).Nodup) (ha : a ∉ P)
    (hl : lookupA (applyNames c0 P) a = some sd) :
    setName (applyNames c0 P) a (get_test_db_name sd) =
      applyNames c0 (P ++ [a]) := by
  have hl0 : lookupA c0 a = some sd := by
    rw [applyNames_lookup] at hl
    cases hc : lookupA c0 a with
    | none => rw [hc] at hl; cases hl
    | some sd0 =>
      rw [hc] at hl
      simp only [Option.map_some', if_neg ha] at hl
      rw [hl]
  rw [setName_mapVal, applyNames_eq_mapVal, applyNames_eq_mapVal, List.map_map]
  apply List.map_congr_left
  intro p hp
  by_cases hpa : p.1 = a
  · have hsd : p.2 = sd := by
      have := lookupA_nodup_mem c0 hnd p hp
      rw [hpa, hl0] at this
      exact Option.some_inj.mp this.symm
    have hmem : p.1 ∈ P ++ [a] := by
      rw [List.mem_append, List.mem_singleton]
      exact Or.inr hpa
    have hnotP : p.1 ∉ P := hpa ▸ ha
    simp only [Function.comp_apply, if_pos hpa, if_neg hnotP, if_pos hmem]
    rw [hsd]
    rfl
  · have hmem : p.1 ∈ P ++ [a] ↔ p.1 ∈ P := by
      rw [List.mem_append, List.mem_singleton]
      exact or_iff_left hpa
    simp only [Function.comp_apply, if_neg hpa]
    by_cases hin : p.1 ∈ P
    · rw [if_pos hin, if_pos (hmem.mpr hin)]
    · rw [if_neg hin, if_neg (fun hc => hin (hmem.mp hc))]

/-! ### The second pass renames each non-mirror alias exactly once -/

theorem processDup_conns (dbn : String) (st : SetupState) (a : String)
    (st' : SetupState) (h : processDup dbn st a = some st') :
    ∃ sd, lookupA st.conns a = some sd ∧
      st'.conns = setName st.conns a (get_test_db_name sd) := by
  rw [processDup] at h
  by_cases hd : dbn ≠ ""
  · rw [if_pos hd] at h
    cases hl : lookupA st.conns a with
    | none => rw [hl] at h; cases h
    | some sd =>
      rw [hl] at h
      cases h
      exact ⟨sd, rfl, rfl⟩
  · rw [if_neg hd] at h
    rw [reopen_connection] at h
    cases hl : lookupA st.conns a with
    | none => rw [hl] at h; cases h
    | some sd =>
      rw [hl] at h
      cases h
      exact ⟨sd, rfl, rfl⟩

theorem dup_fold (c0 : Conns) (hnd : (c0.map Prod.fst).Nodup) (dbn : String) :
    ∀ (as : List String) (st : SetupState) (P : List String),
      st.conns = applyNames c0 P → (P ++ as).Nodup →
      ∀ st', as.foldlM (processDup dbn) st = some st' →
      st'.conns = applyNames c0 (P ++ as)
  | [], st, P, hst, _, st', h => by
    rw [List.foldlM_nil] at h
    cases h
    rw [List.append_nil]
    exact hst
  | a :: as, st, P, hst, hndp, st', h => by
    rw [List.foldlM_cons] at h
    cases hstep : processDup dbn st a with
    | none => rw [hstep] at h; cases h
    | some st1 =>
      rw [hstep] at h
      simp only [Option.bind_eq_bind, Option.some_bind] at h
      obtain ⟨sd, hl, hc1⟩ := processDup_conns dbn st a st1 hstep
      have haP : a ∉ P := by
        have := hndp
        rw [show P ++ a :: as = (P ++ [a]) ++ as by simp] at this
        have hnd1 : (P ++ [a]).Nodup := this.of_append_left
        intro hc
        exact (List.disjoint_of_nodup_append hnd1) hc (List.mem_singleton_self a)
      have hst1 : st1.conns = applyNames c0 (P ++ [a]) := by
        rw [hc1, hst]
        exact setName_applyNames c0 P a sd hnd haP (hst ▸ hl)
      have hnd2 : ((P ++ [a]) ++ as).Nodup := by
        rw [show (P ++ [a]) ++ as = P ++ a :: as by simp]
        exact hndp
      have := dup_fold c0 hnd dbn as st1 (P ++ [a]) hst1 hnd2 st' h
      rw [this]
      simp

theorem reopen_connection_eq (conns : Conns) (a : String) :
    reopen_connection conns a =
      (lookupA conns a).map (fun sd => setName conns a (get_test_db_name sd)) := by
  rw [reopen_connection.eq_def]
  cases lookupA conns a <;> rfl

theorem processGroup_conns (c0 : Conns) (hnd : (c0.map Prod.fst).Nodup)
    (st : SetupState) (g : Sig × String × List String) (P : List String)
    (hst : st.conns = applyNames c0 P) (hndp : (P ++ aliasesOf g).Nodup)
    (st' : SetupState) (h : processGroup st g = some st') :
    st'.conns = applyNames c0 (P ++ aliasesOf g) := by
  rw [processGroup.eq_def] at h
  cases hg : g.2.2 with
  | nil =>
    simp only [hg] at h
    cases h
  | cons a0 rest =>
    simp only [hg] at h
    cases hro : reopen_connection st.conns a0 with
    | none => rw [hro] at h; cases h
    | some cx =>
      rw [hro] at h
      rw [reopen_connection_eq] at hro
      cases hl : lookupA st.conns a0 with
      | none => rw [hl] at hro; cases hro
      | some sd =>
        rw [hl, Option.map_some'] at hro
        have hcx : cx = setName st.conns a0 (get_test_db_name sd) :=
          (Option.some_inj.mp hro).symm
        have hal : aliasesOf g = a0 :: rest := hg
        rw [hal] at hndp
        have haP : a0 ∉ P := by
          rw [show P ++ a0 :: rest = (P ++ [a0]) ++ rest by simp] at hndp
          have hnd1 : (P ++ [a0]).Nodup := hndp.of_append_left
          intro hc
          exact (List.disjoint_of_nodup_append hnd1) hc
            (List.mem_singleton_self a0)
        have hst1 : cx = applyNames c0 (P ++ [a0]) := by
          rw [hcx, hst]
          exact setName_applyNames c0 P a0 sd hnd haP (hst ▸ hl)
        have hnd2 : ((P ++ [a0]) ++ rest).Nodup := by
          rw [show (P ++ [a0]) ++ rest = P ++ a0 :: rest by simp]
          exact hndp
        have := dup_fold c0 hnd g.2.1 rest
          ⟨cx, st.old_names ++ [(a0, g.2.1, true)]⟩ (P ++ [a0]) hst1 hnd2 st' h
        rw [this, hal]
        simp

theorem group_fold (c0 : Conns) (hnd : (c0.map Prod.fst).Nodup) :
    ∀ (gs : List (Sig × String × List String)) (st : SetupState)
      (P : List String), st.conns = applyNames c0 P →
      (P ++ groupAliases gs).Nodup →
      ∀ st', gs.foldlM processGroup st = some st' →
      st'.conns = applyNames c0 (P ++ groupAliases gs)
  | [], st, P, hst, _, st', h => by
    rw [List.foldlM_nil] at h
    cases h
    rw [groupAliases_nil, List.append_nil]
    exact hst
  | g :: gs, st, P, hst, hndp, st', h => by
    rw [List.foldlM_cons] at h
    cases hstep : processGroup st g with
    | none => rw [hstep] at h; cases h
    | some st1 =>
      rw [hstep] at h
      simp only [Option.bind_eq_bind, Option.some_bind] at h
      rw [groupAliases_cons] at hndp ⊢
      have hnd1 : (P ++ aliasesOf g).Nodup := by
        rw [← List.append_assoc] at hndp
        exact hndp.of_append_left
      have hst1 : st1.conns = applyNames c0 (P ++ aliasesOf g) :=
        processGroup_conns c0 hnd st g P hst hnd1 st1 hstep
      have hnd2 : ((P ++ aliasesOf g) ++ groupAliases gs).Nodup := by
        rw [List.append_assoc]
        exact hndp
      have := group_fold c0 hnd gs st1 (P ++ aliasesOf g) hst1 hnd2 st' h
      rw [this, List.append_assoc]

/-! ### The aliases the second pass renames are the non-mirror aliases -/

theorem addToGroup_perm (sig : Sig) (nm : String) (a : String) :
    ∀ (tds : List (Sig × String × List String)),
      (groupAliases (addToGroup sig nm a tds)).Perm (a :: groupAliases tds)
  | [] => by simp [addToGroup, groupAliases, aliasesOf]
  | g :: rest => by
    rw [addToGroup]
    by_cases hs : g.1 = sig
    · rw [if_pos hs]
      show (groupAliases ((g.1, g.2.1, g.2.2 ++ [a]) :: rest)).Perm _
      rw [groupAliases_cons, groupAliases_cons]
      show ((g.2.2 ++ [a]) ++ groupAliases rest).Perm _
      rw [List.append_assoc, List.singleton_append]
      exact List.perm_middle
    · rw [if_neg hs]
      rw [groupAliases_cons, groupAliases_cons]
      exact ((addToGroup_perm sig nm a rest).append_left
        (aliasesOf g)).trans List.perm_middle

theorem foldl_firstPass_tdbs_perm :
    ∀ (cs : Conns) (fp : FirstPass),
      (groupAliases (cs.foldl firstPassStep fp).test_databases).Perm
        (groupAliases fp.test_databases ++ nonMirrorKeys cs)
  | [], fp => by simp [nonMirrorKeys]
  | c :: cs, fp => by
    rw [List.foldl_cons]
    by_cases hm : c.2.test_mirror ≠ ""
    · have hstep : (firstPassStep fp c).test_databases = fp.test_databases := by
        simp [firstPassStep, hm]
      have hnm : nonMirrorKeys (c :: cs) = nonMirrorKeys cs := by
        simp [nonMirrorKeys, List.filter_cons, hm]
      rw [hnm]
      have := foldl_firstPass_tdbs_perm cs (firstPassStep fp c)
      rw [hstep] at this
      exact this
    · have hm' : c.2.test_mirror = "" := not_not.mp hm
      have hstep : (firstPassStep fp c).test_databases =
          addToGroup (test_db_signature c.2) c.2.name c.1 fp.test_databases := by
        simp [firstPassStep, hm]
      have hnm : nonMirrorKeys (c :: cs) = c.1 :: nonMirrorKeys cs := by
        simp [nonMirrorKeys, List.filter_cons, hm']
      rw [hnm]
      have h1 := foldl_firstPass_tdbs_perm cs (firstPassStep fp c)
      rw [hstep] at h1
      have h2 : (groupAliases (addToGroup (test_db_signature c.2) c.2.name c.1
          fp.test_databases) ++ nonMirrorKeys cs).Perm
          (groupAliases fp.test_databases ++ c.1 :: nonMirrorKeys cs) :=
        ((addToGroup_perm _ _ _ _).append_right
          (nonMirrorKeys cs)).trans List.perm_middle.symm
      exact h1.trans h2

theorem firstPass_tdbs_perm (conns : Conns) :
    (groupAliases (firstPass conns).test_databases).Perm
      (nonMirrorKeys conns) := by
  have := foldl_firstPass_tdbs_perm conns ⟨[], [], []⟩
  rw [firstPass]
  simpa [groupAliases] using this

theorem onePass_perm (dm : (Sig × String × List String) → List String) :
    ∀ (tds : List (Sig × String × List String)) (res : List String),
      ((onePass dm tds res).1 ++ (onePass dm tds res).2.1).Perm tds
  | [], res => by simp [onePass]
  | g :: rest, res => by
    by_cases hc : (dm g).all (fun d => decide (d ∈ res)) = true
    · have hop : onePass dm (g :: rest) res =
          (g :: (onePass dm rest (res ++ aliasesOf g)).1,
            (onePass dm rest (res ++ aliasesOf g)).2.1,
            (onePass dm rest (res ++ aliasesOf g)).2.2) := by
        simp only [onePass, hc, if_true]
      rw [hop]
      exact (onePass_perm dm rest (res ++ aliasesOf g)).cons g
    · have hop : onePass dm (g :: rest) res =
          ((onePass dm rest res).1, g :: (onePass dm rest res).2.1,
            (onePass dm rest res).2.2) := by
        simp only [onePass, hc, Bool.false_eq_true, if_false]
      rw [hop]
      show ((onePass dm rest res).1 ++ g :: (onePass dm rest res).2.1).Perm _
      exact List.perm_middle.trans ((onePass_perm dm rest res).cons g)

theorem depLoopAux_perm (dm : (Sig × String × List String) → List String) :
    ∀ (fuel : Nat) (tds : List (Sig × String × List String))
      (res : List String) (out : List (Sig × String × List String)),
      depLoopAux dm fuel tds res = some out → out.Perm tds
  | fuel, [], res, out => by
    intro h
    rw [depLoopAux_nil] at h
    cases h
    exact List.Perm.refl _
  | 0, g :: rest, res, out => by
    intro h
    cases h
  | fuel + 1, g :: rest, res, out => by
    intro h
    rw [depLoopAux_succ] at h
    by_cases hr : (onePass dm (g :: rest) res).1 = []
    · rw [if_pos hr] at h
      cases h
    · rw [if_neg hr, Option.map_eq_some'] at h
      rcases h with ⟨out', hout', hcat⟩
      have ih := depLoopAux_perm dm fuel (onePass dm (g :: rest) res).2.1
        (onePass dm (g :: rest) res).2.2 out' hout'
      rw [← hcat]
      exact (ih.append_left _).trans (onePass_perm dm (g :: rest) res)

theorem dependency_ordered_perm (tds : List (Sig × String × List String))
    (deps : List (String × List String))
    (out : List (Sig × String × List String))
    (h : dependency_ordered tds deps = some out) : out.Perm tds := by
  rw [dependency_ordered] at h
  by_cases hc : tds.all (fun g =>
      (groupDeps deps g).all (fun d => decide (d ∉ aliasesOf g))) = true
  · rw [if_pos hc] at h
    exact depLoopAux_perm _ _ _ _ _ h
  · rw [if_neg hc] at h
    cases h

/-! ### The mirror pass -/

theorem foldl_firstPass_mirrored : ∀ (cs : Conns) (fp : FirstPass),
    (cs.foldl firstPassStep fp).mirrored_aliases =
      fp.mirrored_aliases ++ mirrorPairs cs
  | [], fp => by simp [mirrorPairs]
  | c :: cs, fp => by
    rw [List.foldl_cons, foldl_firstPass_mirrored cs]
    by_cases hm : c.2.test_mirror ≠ ""
    · have hstep : (firstPassStep fp c).mirrored_aliases =
          fp.mirrored_aliases ++ [(c.1, c.2.test_mirror)] := by
        simp [firstPassStep, hm]
      have hmp : mirrorPairs (c :: cs) =
          (c.1, c.2.test_mirror) :: mirrorPairs cs := by
        simp [mirrorPairs, List.filter_cons, hm]
      rw [hstep, hmp]
      simp
    · have hstep : (firstPassStep fp c).mirrored_aliases =
          fp.mirrored_aliases := by
        simp [firstPassStep, hm]
      have hmp : mirrorPairs (c :: cs) = mirrorPairs cs := by
        simp [mirrorPairs, List.filter_cons, hm]
      rw [hstep, hmp]

theorem firstPass_mirrored (conns : Conns) :
    (firstPass conns).mirrored_aliases = mirrorPairs conns := by
  rw [firstPass, foldl_firstPass_mirrored]
  rfl

theorem nonMirrorKeys_nodup (c : Conns) (hnd : (c.map Prod.fst).Nodup) :
    (nonMirrorKeys c).Nodup :=
  hnd.sublist ((List.filter_sublist c).map Prod.fst)

theorem mirrorKeys_nodup (c : Conns) (hnd : (c.map Prod.fst).Nodup) :
    ((mirrorPairs c).map Prod.fst).Nodup := by
  have heq : (mirrorPairs c).map Prod.fst =
      (c.filter (fun p => decide (p.2.test_mirror ≠ ""))).map Prod.fst := by
    rw [mirrorPairs, List.map_map]
    exact List.map_congr_left (fun p _ => rfl)
  rw [heq]
  exact hnd.sublist ((List.filter_sublist c).map Prod.fst)

theorem entry_eq_of_key (c : Conns) (hnd : (c.map Prod.fst).Nodup)
    (p q : String × SettingsDict) (hp : p ∈ c) (hq : q ∈ c)
    (h : p.1 = q.1) : p = q := by
  have h1 := lookupA_nodup_mem c hnd p hp
  have h2 := lookupA_nodup_mem c hnd q hq
  rw [h] at h1
  exact Prod.ext h (Option.some_inj.mp (h1.symm.trans h2))

theorem nonMirrorKeys_mem (c : Conns) (hnd : (c.map Prod.fst).Nodup)
    (p : String × SettingsDict) (hp : p ∈ c) :
    p.1 ∈ nonMirrorKeys c ↔ p.2.test_mirror = "" := by
  constructor
  · intro h
    rcases List.mem_map.mp h with ⟨q, hq, hq1⟩
    rcases List.mem_filter.mp hq with ⟨hqc, hqm⟩
    have hqp : q = p := entry_eq_of_key c hnd q p hqc hp hq1
    rw [← hqp]
    simpa using hqm
  · intro h
    exact List.mem_map.mpr ⟨p, List.mem_filter.mpr ⟨hp, by simp [h]⟩, rfl⟩

theorem mirrorPairs_mem (c0 : Conns) (hnd : (c0.map Prod.fst).Nodup)
    (m : String × String) (hm : m ∈ mirrorPairs c0) :
    ∃ sd, lookupA c0 m.1 = some sd ∧ sd.test_mirror = m.2 ∧
      sd.test_mirror ≠ "" := by
  rcases List.mem_map.mp hm with ⟨q, hq, hqm⟩
  rcases List.mem_filter.mp hq with ⟨hqc, hqd⟩
  refine ⟨q.2, ?_, ?_, by simpa using hqd⟩
  · have := lookupA_nodup_mem c0 hnd q hqc
    rw [show m.1 = q.1 by rw [← hqm]]
    exact this
  · rw [← hqm]

theorem finalConns_eq_mapVal (c0 : Conns) (D : List String) :
    finalConns c0 D = c0.map (fun p => (p.1,
      if p.2.test_mirror = "" then updName p.2
      else if p.1 ∈ D then { p.2 with name := mirrorName c0 p.2 }
      else p.2)) := rfl

theorem finalConns_lookup (c0 : Conns) (D : List String) (a : String) :
    lookupA (finalConns c0 D) a = (lookupA c0 a).map (fun sd =>
      if sd.test_mirror = "" then updName sd
      else if a ∈ D then { sd with name := mirrorName c0 sd }
      else sd) :=
  lookupA_mapVal (fun (k : String) (sd : SettingsDict) =>
    if sd.test_mirror = "" then updName sd
    else if k ∈ D then { sd with name := mirrorName c0 sd }
    else sd) c0 a

theorem finalConns_keys (c0 : Conns) (D : List String) :
    (finalConns c0 D).map Prod.fst = c0.map Prod.fst :=
  keys_mapVal (fun (k : String) (sd : SettingsDict) =>
    if sd.test_mirror = "" then updName sd
    else if k ∈ D then { sd with name := mirrorName c0 sd }
    else sd) c0

theorem applyNames_eq_finalConns_nil (c0 : Conns)
    (hnd : (c0.map Prod.fst).Nodup) (A : List String)
    (hA : ∀ x, x ∈ A ↔ x ∈ nonMirrorKeys c0) :
    applyNames c0 A = finalConns c0 [] := by
  rw [applyNames_eq_mapVal, finalConns_eq_mapVal]
  apply List.map_congr_left
  intro p hp
  have hiff : p.1 ∈ A ↔ p.2.test_mirror = "" :=
    (hA p.1).trans (nonMirrorKeys_mem c0 hnd p hp)
  by_cases hm : p.2.test_mirror = ""
  · rw [if_pos (hiff.mpr hm), if_pos hm]
  · rw [if_neg (fun hc => hm (hiff.mp hc)), if_neg hm,
      if_neg (List.not_mem_nil p.1)]

theorem setName_finalConns (c0 : Conns) (hnd : (c0.map Prod.fst).Nodup)
    (D : List String) (a : String) (sd0 tsd : SettingsDict)
    (hl : lookupA c0 a = some sd0) (hne : sd0.test_mirror ≠ "")
    (haD : a ∉ D) (hlt : lookupA c0 sd0.test_mirror = some tsd) :
    setName (finalConns c0 D) a (get_test_db_name tsd) =
      finalConns c0 (D ++ [a]) := by
  rw [setName_mapVal, finalConns_eq_mapVal, finalConns_eq_mapVal, List.map_map]
  apply List.map_congr_left
  intro p hp
  by_cases hpa : p.1 = a
  · have hpsd : p.2 = sd0 := by
      have := lookupA_nodup_mem c0 hnd p hp
      rw [hpa, hl] at this
      exact (Option.some_inj.mp this).symm
    have hmem : p.1 ∈ D ++ [a] := by
      rw [List.mem_append, List.mem_singleton]
      exact Or.inr hpa
    have hnotD : p.1 ∉ D := hpa ▸ haD
    have hpm : ¬ p.2.test_mirror = "" := hpsd ▸ hne
    simp only [Function.comp_apply, if_pos hpa, if_neg hpm, if_neg hnotD,
      if_pos hmem]
    have hmn : mirrorName c0 p.2 = get_test_db_name tsd := by
      rw [mirrorName.eq_def, hpsd, hlt]
    rw [hmn]
  · have hmem : p.1 ∈ D ++ [a] ↔ p.1 ∈ D := by
      rw [List.mem_append, List.mem_singleton]
      exact or_iff_left hpa
    simp only [Function.comp_apply, if_neg hpa]
    by_cases hpm : p.2.test_mirror = ""
    · rw [if_pos hpm, if_pos hpm]
    · rw [if_neg hpm, if_neg hpm]
      by_cases hin : p.1 ∈ D
      · rw [if_pos hin, if_pos (hmem.mpr hin)]
      · rw [if_neg hin, if_neg (fun hc => hin (hmem.mp hc))]

theorem mirror_fold (c0 : Conns) (hnd : (c0.map Prod.fst).Nodup)
    (hm : ∀ p ∈ mirrorPairs c0, ∃ tsd, lookupA c0 p.2 = some tsd ∧
      tsd.test_mirror = "") :
    ∀ (ms : List (String × String)) (st : Conns × List (String × String))
      (D : List String), st.1 = finalConns c0 D →
      (D ++ ms.map Prod.fst).Nodup → (∀ m ∈ ms, m ∈ mirrorPairs c0) →
      ∀ st', ms.foldlM processMirror st = some st' →
      st'.1 = finalConns c0 (D ++ ms.map Prod.fst)
  | [], st, D, hst, _, _, st', h => by
    rw [List.foldlM_nil] at h
    cases h
    simpa using hst
  | m :: ms, st, D, hst, hndp, hmem, st', h => by
    rw [List.foldlM_cons] at h
    cases hstep : processMirror st m with
    | none => rw [hstep] at h; cases h
    | some st1 =>
      rw [hstep] at h
      simp only [Option.bind_eq_bind, Option.some_bind] at h
      obtain ⟨sd0, hl0, hmir, hne⟩ :=
        mirrorPairs_mem c0 hnd m (hmem m (List.mem_cons_self _ _))
      obtain ⟨tsd, hlt, htm⟩ := hm m (hmem m (List.mem_cons_self _ _))
      rw [List.map_cons] at hndp
      have haD : m.1 ∉ D := by
        rw [show D ++ m.1 :: ms.map Prod.fst =
            (D ++ [m.1]) ++ ms.map Prod.fst by simp] at hndp
        have hnd1 : (D ++ [m.1]).Nodup := hndp.of_append_left
        intro hc
        exact (List.disjoint_of_nodup_append hnd1) hc
          (List.mem_singleton_self m.1)
      have hla : lookupA st.1 m.1 = some sd0 := by
        rw [hst, finalConns_lookup, hl0, Option.map_some', if_neg hne,
          if_neg haD]
      have hlt' : lookupA st.1 m.2 = some (updName tsd) := by
        rw [hst, finalConns_lookup, hlt, Option.map_some', if_pos htm]
      rw [processMirror.eq_def, hla, hlt'] at hstep
      have hst1 : st1.1 = setName st.1 m.1 (updName tsd).name := by
        cases hstep
        rfl
      have hst1' : st1.1 = finalConns c0 (D ++ [m.1]) := by
        rw [hst1, hst]
        have : (updName tsd).name = get_test_db_name tsd := rfl
        rw [this]
        exact setName_finalConns c0 hnd D m.1 sd0 tsd hl0 hne haD
          (hmir ▸ hlt)
      have hnd2 : ((D ++ [m.1]) ++ ms.map Prod.fst).Nodup := by
        rw [show (D ++ [m.1]) ++ ms.map Prod.fst =
            D ++ m.1 :: ms.map Prod.fst by simp]
        exact hndp
      have := mirror_fold c0 hnd hm ms st1 (D ++ [m.1]) hst1' hnd2
        (fun x hx => hmem x (List.mem_cons_of_mem _ hx)) st' h
      rw [this]
      simp

/-! ### The `setup_databases` frame theorem -/

/-- C3: under a well-formed configuration (distinct aliases; every
`TEST_MIRROR` target is a non-mirror alias of the handler), a successful
`setup_databases` never touches the set of existing databases, keeps the
handler's aliases, and mutates only each connection's `NAME`: a
non-mirror connection receives its test database name (`TEST_NAME` when
set, else `'test_'` + `NAME`), a mirror connection receives the
mirrored alias's `NAME` (that alias's test database name); every other
settings entry is unchanged. -/
theorem setup_databases_frame (w : World)
    (hnd : (w.conns.map Prod.fst).Nodup)
    (hm : ∀ p ∈ mirrorPairs w.conns, ∃ tsd, lookupA w.conns p.2 = some tsd ∧
      tsd.test_mirror = "")
    (w' : World) (olds : List (String × String × Bool))
    (mirs : List (String × String))
    (h : setup_databases w = some (w', olds, mirs)) :
    w'.dbs = w.dbs ∧
    w'.conns.map Prod.fst = w.conns.map Prod.fst ∧
    (∀ a sd, lookupA w.conns a = some sd →
      ∃ sd', lookupA w'.conns a = some sd' ∧
        sd'.host = sd.host ∧ sd'.port = sd.port ∧ sd'.engine = sd.engine ∧
        sd'.test_name = sd.test_name ∧ sd'.test_mirror = sd.test_mirror ∧
        sd'.test_dependencies = sd.test_dependencies ∧ sd'.extra = sd.extra ∧
        (sd.test_mirror = "" → sd'.name = get_test_db_name sd) ∧
        (sd.test_mirror ≠ "" →
          ∃ tsd, lookupA w.conns sd.test_mirror = some tsd ∧
            sd'.name = get_test_db_name tsd)) := by
  simp only [setup_databases] at h
  cases hdo : dependency_ordered (firstPass w.conns).test_databases
      (firstPass w.conns).dependencies with
  | none =>
    rw [hdo] at h
    exact Option.noConfusion h
  | some ordered =>
    simp only [hdo] at h
    cases hsg : ordered.foldlM processGroup
        (⟨w.conns, []⟩ : SetupState) with
    | none =>
      rw [hsg] at h
      exact Option.noConfusion h
    | some st =>
      simp only [hsg] at h
      cases hsm : (firstPass w.conns).mirrored_aliases.foldlM processMirror
          (st.conns, ([] : List (String × String))) with
      | none =>
        rw [hsm] at h
        exact Option.noConfusion h
      | some cm =>
        simp only [hsm, Option.some_inj] at h
        have hw' : w' = ⟨w.dbs, cm.1⟩ := (congrArg Prod.fst h).symm
        have hperm : ordered.Perm (firstPass w.conns).test_databases :=
          dependency_ordered_perm _ _ _ hdo
        have hga : (groupAliases ordered).Perm (nonMirrorKeys w.conns) :=
          (List.Perm.flatten (hperm.map aliasesOf)).trans
            (firstPass_tdbs_perm w.conns)
        have hganodup : (groupAliases ordered).Nodup :=
          hga.symm.nodup (nonMirrorKeys_nodup w.conns hnd)
        have hpass2 : st.conns = applyNames w.conns (groupAliases ordered) := by
          have := group_fold w.conns hnd ordered (⟨w.conns, []⟩ : SetupState)
            [] (applyNames_nil w.conns).symm (by simpa using hganodup) st hsg
          simpa using this
        have hfc0 : applyNames w.conns (groupAliases ordered) =
            finalConns w.conns [] :=
          applyNames_eq_finalConns_nil w.conns hnd _ (fun x => hga.mem_iff)
        rw [firstPass_mirrored] at hsm
        have hmfold : cm.1 =
            finalConns w.conns ((mirrorPairs w.conns).map Prod.fst) := by
          have := mirror_fold w.conns hnd hm (mirrorPairs w.conns)
            (st.conns, []) [] (by rw [hpass2, hfc0])
            (by simpa using mirrorKeys_nodup w.conns hnd)
            (fun m hmm => hmm) cm hsm
          simpa using this
        refine ⟨by rw [hw'], ?_, ?_⟩
        · rw [hw']
          show cm.1.map Prod.fst = w.conns.map Prod.fst
          rw [hmfold, finalConns_keys]
        · intro a sd hla
          have hwc : w'.conns =
              finalConns w.conns ((mirrorPairs w.conns).map Prod.fst) := by
            rw [hw']
            exact hmfold
          rw [hwc, finalConns_lookup, hla, Option.map_some']
          by_cases hsd : sd.test_mirror = ""
          · refine ⟨updName sd, by rw [if_pos hsd], ?_⟩
            refine ⟨rfl, rfl, rfl, rfl, rfl, rfl, rfl, fun _ => rfl,
              fun hne => absurd hsd hne⟩
          · have hamem : a ∈ (mirrorPairs w.conns).map Prod.fst := by
              refine List.mem_map.mpr ⟨(a, sd.test_mirror), ?_, rfl⟩
              exact List.mem_map.mpr ⟨(a, sd),
                List.mem_filter.mpr ⟨lookupA_mem w.conns a sd hla,
                  by simp [hsd]⟩, rfl⟩
            obtain ⟨tsd, hlt, htm⟩ := hm (a, sd.test_mirror)
              (List.mem_map.mpr ⟨(a, sd),
                List.mem_filter.mpr ⟨lookupA_mem w.conns a sd hla,
                  by simp [hsd]⟩, rfl⟩)
            refine ⟨{ sd with name := mirrorName w.conns sd },
              by rw [if_neg hsd, if_pos hamem], ?_⟩
            refine ⟨rfl, rfl, rfl, rfl, rfl, rfl, rfl,
              fun hc => absurd hc hsd, fun _ => ⟨tsd, hlt, ?_⟩⟩
            show mirrorName w.conns sd = get_test_db_name tsd
            rw [mirrorName.eq_def, hlt]

/-- C3 witness: on `exampleWorld`, `setup_databases` succeeds, keeps the
database list and the aliases, renames `default` to `test_app` and gives
the mirror the mirrored alias's name. -/
theorem setup_databases_frame_witness :
    ((exampleWorld.conns.map Prod.fst).Nodup ∧
      (∀ p ∈ mirrorPairs exampleWorld.conns,
        ∃ tsd, lookupA exampleWorld.conns p.2 = some tsd ∧
          tsd.test_mirror = "") ∧
      setup_databases exampleWorld =
        some (exampleWorldAfter, [("default", "app", true)],
          [("mirror1", "app")])) ∧
    (exampleWorldAfter.dbs = exampleWorld.dbs ∧
      exampleWorldAfter.conns.map Prod.fst = exampleWorld.conns.map Prod.fst ∧
      (∀ a sd, lookupA exampleWorld.conns a = some sd →
        ∃ sd', lookupA exampleWorldAfter.conns a = some sd' ∧
          sd'.host = sd.host ∧ sd'.port = sd.port ∧ sd'.engine = sd.engine ∧
          sd'.test_name = sd.test_name ∧ sd'.test_mirror = sd.test_mirror ∧
          sd'.test_dependencies = sd.test_dependencies ∧
          sd'.extra = sd.extra ∧
          (sd.test_mirror = "" → sd'.name = get_test_db_name sd) ∧
          (sd.test_mirror ≠ "" →
            ∃ tsd, lookupA exampleWorld.conns sd.test_mirror = some tsd ∧
              sd'.name = get_test_db_name tsd))) := by
  have hmw : ∀ p ∈ mirrorPairs exampleWorld.conns,
      ∃ tsd, lookupA exampleWorld.conns p.2 = some tsd ∧
        tsd.test_mirror = "" := by
    intro p hp
    have hp' : p ∈ [(("mirror1" : String), ("default" : String))] := hp
    rw [List.mem_singleton.mp hp']
    exact ⟨⟨"app", "h", "p", "e", "", "", none, []⟩, rfl, rfl⟩
  exact ⟨⟨by decide, hmw, rfl⟩,
    setup_databases_frame exampleWorld (by decide) hmw exampleWorldAfter
      [("default", "app", true)] [("mirror1", "app")] rfl⟩

end TestTools
